import Mathlib

set_option linter.unusedSectionVars false

/-!
Shallow embedding of the route-optimization kernel in `src/lib/tsp.ts` of the
smartroute-planner repository.  The algorithmic core (`calculateTotalDistance`,
`nearestNeighborTSP`, `twoOptOptimization`, `bruteForceOptimize`, the solver
dispatch) is embedded polymorphically over a linear ordered field, mirroring the
source's arithmetic on JavaScript numbers with exact field arithmetic; the
geographic layer (`calculateDistance`, `createDistanceMatrix`, `solveTSP`) is
instantiated at the real numbers, with `Math.sin`/`Math.cos`/`Math.atan2`/
`Math.sqrt` read as the corresponding real functions.  The source's unbounded
`while` loops are embedded with an explicit fuel that provably exceeds the
number of iterations the loops can perform (each adopted 2-opt move strictly
decreases the tour cost, and tour costs range over a finite set).
-/

namespace TSP

open scoped List

inductive VehicleType where
  | car : VehicleType
  | bike : VehicleType

structure RouteResult (α : Type) where
  path : List Nat
  totalDistance : α
  estimatedTime : α

structure OptimizationResult (α : Type) where
  originalRoute : RouteResult α
  optimizedRoute : RouteResult α
  savingsDistance : α
  savingsTime : α
  savingsPercentage : α

/-- Speed factors based on vehicle type (km/h), from `VEHICLE_SPEEDS`. -/
def VEHICLE_SPEEDS (α : Type) [LinearOrderedField α] : VehicleType → α
  | .car => 45
  | .bike => 25

variable {α : Type} [LinearOrderedField α]

/-- Matrix lookup `m[i][j]`, with out-of-range reads defaulting to 0. -/
def mEntry (m : List (List α)) (i j : Nat) : α := (m.getD i []).getD j 0

/-- Sum of `m[path[i]][path[i+1]]` over consecutive pairs of `path`
(the `for` loop of `calculateTotalDistance`). -/
def consecSum (m : List (List α)) : List Nat → α
  | a :: b :: rest => mEntry m a b + consecSum m (b :: rest)
  | _ => 0

/-- Total cycle distance of a path: consecutive edges plus the closing edge
back to the start (source `calculateTotalDistance`). -/
def calculateTotalDistance (path : List Nat) (m : List (List α)) : α :=
  consecSum m path +
    (if 1 < path.length then mEntry m (path.getLastD 0) (path.headD 0) else 0)

/-- One step of the scan in `nearestNeighborTSP`: city `i` replaces the current
candidate when it is unvisited and strictly closer than the best so far
(`none` plays the role of the initial `Infinity`). -/
def betterCity (m : List (List α)) (current : Nat) (path : List Nat) (i : Nat) :
    Option α → Bool
  | none => decide (i ∉ path)
  | some d => decide (i ∉ path) && decide (mEntry m current i < d)

/-- The ascending scan over all cities in `nearestNeighborTSP`, returning the
nearest unvisited city (`none` models the `-1` sentinel). -/
def scanNearest (m : List (List α)) (current : Nat) (path : List Nat)
    (l : List Nat) : Option α × Option Nat :=
  l.foldl
    (fun s i =>
      if betterCity m current path i s.1 then (some (mEntry m current i), some i)
      else s)
    (none, none)

/-- The `while (visited.size < n)` loop of `nearestNeighborTSP`.  The visited
set and the path always hold the same cities, so the path alone carries the
loop state; the fuel bounds the number of iterations (each successful
iteration appends one city, so `n` steps suffice). -/
def nnLoop (m : List (List α)) (n : Nat) : Nat → List Nat → List Nat
  | 0, path => path
  | fuel + 1, path =>
    if path.length < n then
      match (scanNearest m (path.getLastD 0) path (List.range n)).2 with
      | some c => nnLoop m n fuel (path ++ [c])
      | none => nnLoop m n fuel path
    else path

/-- Nearest Neighbor construction from a given starting city
(source `nearestNeighborTSP`). -/
def nearestNeighborTSP (m : List (List α)) (startCity : Nat) : List Nat :=
  if m.length = 0 then []
  else if m.length = 1 then [0]
  else nnLoop m m.length m.length [startCity]

/-- Reverse the segment `path[i+1 .. j]` (source `twoOptSwap`, built from the
three `slice`s). -/
def twoOptSwap (path : List Nat) (i j : Nat) : List Nat :=
  path.take (i + 1) ++ ((path.drop (i + 1)).take (j - i)).reverse ++ path.drop (j + 1)

/-- The inner `for (let j = i + 2; j < bestPath.length; j++)` loop of
`twoOptOptimization`; state is (bestPath, bestDistance, improved).  The
comparison tolerance `0.0001` of the source is the exact rational `1/10000`. -/
def twoOptInner (m : List (List α)) (i : Nat) :
    Nat → Nat → List Nat × α × Bool → List Nat × α × Bool
  | 0, _, s => s
  | fuel + 1, j, (best, bd, imp) =>
    if j < best.length then
      if calculateTotalDistance (twoOptSwap best i j) m < bd - 1 / 10000 then
        twoOptInner m i fuel (j + 1)
          (twoOptSwap best i j, calculateTotalDistance (twoOptSwap best i j) m, true)
      else
        twoOptInner m i fuel (j + 1) (best, bd, imp)
    else (best, bd, imp)

/-- The outer `for (let i = 0; i < bestPath.length - 1; i++)` loop of
`twoOptOptimization` (one full scan of all pairs). -/
def twoOptOuter (m : List (List α)) :
    Nat → Nat → List Nat × α × Bool → List Nat × α × Bool
  | 0, _, s => s
  | fuel + 1, i, (best, bd, imp) =>
    if i < best.length - 1 then
      twoOptOuter m fuel (i + 1) (twoOptInner m i best.length (i + 2) (best, bd, imp))
    else (best, bd, imp)

/-- The `while (improved)` loop of `twoOptOptimization`; each fuel step is one
full scan starting with `improved = false`. -/
def twoOptWhile (m : List (List α)) : Nat → List Nat → α → List Nat
  | 0, best, _ => best
  | fuel + 1, best, bd =>
    match twoOptOuter m best.length 0 (best, bd, false) with
    | (b, d, imp) => if imp then twoOptWhile m fuel b d else b

/-- 2-opt local search (source `twoOptOptimization`).  The fuel
`path.length ! + 1` provably exceeds the number of improving scans the source's
unbounded `while` loop can perform, so the embedding agrees with the source. -/
def twoOptOptimization (path : List Nat) (m : List (List α)) : List Nat :=
  if path.length < 3 then path
  else twoOptWhile m (path.length.factorial + 1) path (calculateTotalDistance path m)

/-- Recursion of `getPermutations`, with fuel equal to the list length
(the recursive call removes one element). -/
def permsAux : Nat → List Nat → List (List Nat)
  | 0, arr => [arr]
  | fuel + 1, arr =>
    if arr.length ≤ 1 then [arr]
    else
      (List.range arr.length).flatMap fun i =>
        (permsAux fuel (arr.eraseIdx i)).map fun p => arr.getD i 0 :: p

/-- All permutations of an array, in the source's enumeration order
(source `getPermutations`). -/
def getPermutations (arr : List Nat) : List (List Nat) := permsAux arr.length arr

/-- Exact solver: enumerate `0 :: perm` for all permutations of `1..n-1`,
keeping the first minimum (source `bruteForceOptimize`). -/
def bruteForceOptimize (m : List (List α)) : List Nat :=
  if m.length ≤ 1 then [0]
  else if m.length = 2 then [0, 1]
  else
    let cities := List.range' 1 (m.length - 1)
    let init := 0 :: cities
    (getPermutations cities |>.foldl
      (fun s perm =>
        let path := 0 :: perm
        let distance := calculateTotalDistance path m
        if distance < s.2 then (path, distance) else s)
      (init, calculateTotalDistance init m)).1

/-- The multi-start nearest-neighbor selection of `solveTSP` (starts
`0, 1, ..., min(n,5)-1`, keeping the lowest-cost tour). -/
def bestNearestNeighbor (m : List (List α)) (n : Nat) : List Nat :=
  ((List.range' 1 (min n 5 - 1)).foldl
    (fun s start =>
      let path := nearestNeighborTSP m start
      let distance := calculateTotalDistance path m
      if distance < s.2 then (path, distance) else s)
    (nearestNeighborTSP m 0, calculateTotalDistance (nearestNeighborTSP m 0) m)).1

/-- Strategy dispatch of `solveTSP`: brute force for `n ≤ 8`, otherwise
multi-start nearest neighbor followed by 2-opt. -/
def chooseOptimizedPath (m : List (List α)) (n : Nat) : List Nat :=
  if n ≤ 8 then bruteForceOptimize m
  else twoOptOptimization (bestNearestNeighbor m n) m

structure Location where
  id : String
  name : String
  lat : ℝ
  lng : ℝ
  address : Option String := none

instance : Inhabited Location := ⟨⟨"", "", 0, 0, none⟩⟩

/-- Degrees to radians (source `toRad`). -/
noncomputable def toRad (deg : ℝ) : ℝ := deg * (Real.pi / 180)

/-- JavaScript's `Math.atan2(y, x)` over the reals. -/
noncomputable def atan2 (y x : ℝ) : ℝ :=
  if 0 < x then Real.arctan (y / x)
  else if x < 0 then
    (if 0 ≤ y then Real.arctan (y / x) + Real.pi else Real.arctan (y / x) - Real.pi)
  else
    (if 0 < y then Real.pi / 2 else if y < 0 then -(Real.pi / 2) else 0)

/-- Haversine great-circle distance in km, Earth radius 6371
(source `calculateDistance`). -/
noncomputable def calculateDistance (lat1 lon1 lat2 lon2 : ℝ) : ℝ :=
  let dLat := toRad (lat2 - lat1)
  let dLon := toRad (lon2 - lon1)
  let a := Real.sin (dLat / 2) * Real.sin (dLat / 2) +
    Real.cos (toRad lat1) * Real.cos (toRad lat2) *
      Real.sin (dLon / 2) * Real.sin (dLon / 2)
  let c := 2 * atan2 (Real.sqrt a) (Real.sqrt (1 - a))
  6371 * c

/-- Pairwise distance matrix with zero diagonal (source `createDistanceMatrix`). -/
noncomputable def createDistanceMatrix (locations : List Location) : List (List ℝ) :=
  (List.range locations.length).map fun i =>
    (List.range locations.length).map fun j =>
      if i = j then 0
      else
        calculateDistance (locations.getD i default).lat (locations.getD i default).lng
          (locations.getD j default).lat (locations.getD j default).lng

/-- Main solver (source `solveTSP`): `null` for fewer than 2 waypoints,
otherwise the original-order route, the optimized route, and savings
floored at zero. -/
noncomputable def solveTSP (locations : List Location) (vehicleType : VehicleType) :
    Option (OptimizationResult ℝ) :=
  if locations.length < 2 then none
  else
    let distanceMatrix := createDistanceMatrix locations
    let speed := VEHICLE_SPEEDS ℝ vehicleType
    let n := locations.length
    let originalPath := locations.mapIdx fun idx _ => idx
    let originalDistance := calculateTotalDistance originalPath distanceMatrix
    let originalTime := originalDistance / speed * 60
    let optimizedPath := chooseOptimizedPath distanceMatrix n
    let optimizedDistance := calculateTotalDistance optimizedPath distanceMatrix
    let optimizedTime := optimizedDistance / speed * 60
    let savingsDistance := originalDistance - optimizedDistance
    let savingsTime := originalTime - optimizedTime
    let savingsPercentage :=
      if 0 < originalDistance then savingsDistance / originalDistance * 100 else 0
    some
      { originalRoute := ⟨originalPath, originalDistance, originalTime⟩
        optimizedRoute := ⟨optimizedPath, optimizedDistance, optimizedTime⟩
        savingsDistance := max 0 savingsDistance
        savingsTime := max 0 savingsTime
        savingsPercentage := max 0 savingsPercentage }

/-- Ten waypoints on the equator (integer-degree longitudes); the heuristic
branch of the solver makes this input-order route strictly worse. -/
def circlePos : List ℤ := [5, 9, 12, 23, 30, 36, 53, 59, 180, -17]

/-- Distance matrix of `circlePos` in units of `6371 * π / 180` km:
great-circle distance between equator points at integer longitudes `a` and `b`
is that unit times `min (|a - b|) (360 - |a - b|)`. -/
def mC1 : List (List ℚ) :=
  circlePos.map fun a => circlePos.map fun b =>
    ((min (|a - b|) (360 - |a - b|) : ℤ) : ℚ)

/-- The waypoint list realizing `mC1`: all points on the equator, longitudes
given by `circlePos`, in the order the user entered them. -/
noncomputable def locs10 : List Location :=
  circlePos.map fun a =>
    { id := "", name := "", lat := 0, lng := (Int.cast a : ℝ) }

/-- A two-waypoint instance on the equator, used to exercise the solver. -/
noncomputable def locsPair : List Location :=
  [{ id := "a", name := "A", lat := 0, lng := 0 },
   { id := "b", name := "B", lat := 0, lng := 1 }]

/-- One kilometre-unit of the `mC1` instance: the great-circle distance
subtended by one degree on the equator of a radius-6371 sphere. -/
noncomputable def unitKm : ℝ := 6371 * (Real.pi / 180)

/-- Scaling a rational cost into the real costs of the `locs10` instance. -/
noncomputable def scaleQ (q : ℚ) : ℝ := unitKm * (q : ℝ)

/-- Apply a function to every entry of a matrix. -/
def mapMat {α β : Type} (f : α → β) (m : List (List α)) : List (List β) :=
  m.map (List.map f)

/-- Every entry of the matrix is non-negative. -/
def MatNonneg (m : List (List α)) : Prop := ∀ row ∈ m, ∀ x ∈ row, 0 ≤ x

/-- Every entry of the matrix is an integer. -/
def IntMat (m : List (List α)) : Prop := ∀ row ∈ m, ∀ x ∈ row, ∃ k : ℤ, x = k

/-- Modelled from the spec, section 4.5 (Local Search Refiner): the scan of the
reference first-improvement 2-opt — "for every pair of positions i < j in the
tour, construct the candidate tour formed by reversing the segment between i
and j; if its cost is lower than the current best by more than the tolerance,
adopt it" — returning the first improving candidate, or none. -/
def twoOptRestartScan (m : List (List α)) (best : List Nat) (bd : α) :
    Option (List Nat × α) :=
  ((List.range best.length).flatMap fun i =>
    (List.range' (i + 1) (best.length - (i + 1))).map fun j => (i, j)).findSome?
    fun p =>
      let cand := twoOptSwap best p.1 p.2
      let cd := calculateTotalDistance cand m
      if cd < bd - 1 / 10000 then some (cand, cd) else none

/-- Modelled from the spec, section 4.5: after adopting an improving move,
"restart the scan", "applied repeatedly until a full pass yields no improving
move"; the fuel bounds the number of adoptions, which the strict cost decrease
makes finite. -/
def twoOptRestartLoop (m : List (List α)) : Nat → List Nat → α → List Nat
  | 0, best, _ => best
  | fuel + 1, best, bd =>
    match twoOptRestartScan m best bd with
    | some (b, d) => twoOptRestartLoop m fuel b d
    | none => best

/-- Modelled from the spec, section 4.5: the reference restart-scan
first-improvement 2-opt algorithm ("Takes any tour of length ≥ 3; shorter
tours are returned unchanged"). -/
def twoOptReferenceRestart (path : List Nat) (m : List (List α)) : List Nat :=
  if path.length < 3 then path
  else twoOptRestartLoop m (path.length.factorial + 1) path
    (calculateTotalDistance path m)

/-- A symmetric 6-city instance on which the source's continue-scan 2-opt and
the spec's restart-scan 2-opt reach different local optima. -/
def mC3 : List (List ℚ) :=
  [[0, 19, 3, 20, 1, 16],
   [19, 0, 9, 18, 8, 7],
   [3, 9, 0, 16, 18, 18],
   [20, 18, 16, 0, 16, 13],
   [1, 8, 18, 16, 0, 5],
   [16, 7, 18, 13, 5, 0]]

/-- Number of tours (permutations of a reference tour) strictly cheaper than a
given bound; the decreasing measure that bounds the number of improving scans
of the 2-opt while loop. -/
def costMeasure (m : List (List α)) (ref : List Nat) (bd : α) : Nat :=
  (ref.permutations.filter
    (fun p => decide (calculateTotalDistance p m < bd))).length

/-! ### Generic list helpers -/

theorem getD_mem_or_eq {β : Type} (l : List β) (n : Nat) (d : β) :
    l.getD n d ∈ l ∨ l.getD n d = d := by
  by_cases h : n < l.length
  · left
    rw [List.getD_eq_getElem l d h]
    exact List.getElem_mem h
  · right
    exact List.getD_eq_default l d (Nat.le_of_not_lt h)

theorem getD_map_zero {β γ : Type} [Zero β] [Zero γ] (f : β → γ) (hf0 : f 0 = 0)
    (l : List β) (n : Nat) : (l.map f).getD n 0 = f (l.getD n 0) := by
  by_cases h : n < l.length
  · rw [List.getD_eq_getElem _ _ (by simpa using h), List.getD_eq_getElem _ _ h,
      List.getElem_map]
  · rw [List.getD_eq_default _ _ (by simpa using Nat.le_of_not_lt h),
      List.getD_eq_default _ _ (Nat.le_of_not_lt h), hf0]

theorem map_eq_range_map {β γ : Type} (g : β → γ) (d : β) :
    ∀ l : List β, l.map g = (List.range l.length).map fun i => g (l.getD i d)
  | [] => by simp
  | a :: t => by
    rw [List.length_cons, List.range_succ_eq_map, List.map_cons, List.map_cons,
      List.map_map]
    simp only [List.getD_cons_zero, Function.comp_def, List.getD_cons_succ]
    rw [← map_eq_range_map g d t]

/-! ### Properties of twoOptSwap -/

theorem twoOptSwap_perm (path : List Nat) (i j : Nat) (hij : i ≤ j) :
    twoOptSwap path i j ~ path := by
  unfold twoOptSwap
  have h2 : j + 1 = (i + 1) + (j - i) := by omega
  calc path.take (i + 1) ++ ((path.drop (i + 1)).take (j - i)).reverse ++ path.drop (j + 1)
      ~ path.take (i + 1) ++ ((path.drop (i + 1)).take (j - i) ++ path.drop (j + 1)) := by
        rw [List.append_assoc]
        exact List.Perm.append_left _ (List.Perm.append_right _ (List.reverse_perm _))
    _ = path.take (i + 1) ++ path.drop (i + 1) := by
        rw [h2, List.drop_take_append_drop]
    _ = path := List.take_append_drop _ _

theorem twoOptSwap_length (path : List Nat) (i j : Nat) (hij : i ≤ j) :
    (twoOptSwap path i j).length = path.length :=
  (twoOptSwap_perm path i j hij).length_eq

theorem twoOptSwap_head (path : List Nat) (i j : Nat) :
    (twoOptSwap path i j).head? = path.head? := by
  cases path with
  | nil => simp [twoOptSwap]
  | cons a t => simp [twoOptSwap, List.take_succ_cons]

/-! ### Matrix entry and total-distance lemmas -/

theorem mEntry_nonneg {m : List (List α)} (hm : MatNonneg m) (i j : Nat) :
    0 ≤ mEntry m i j := by
  unfold mEntry
  rcases getD_mem_or_eq m i [] with h | h
  · rcases getD_mem_or_eq (m.getD i []) j 0 with h2 | h2
    · exact hm _ h _ h2
    · exact le_of_eq h2.symm
  · rw [h]
    exact le_of_eq (List.getD_nil).symm

theorem mEntry_int {m : List (List α)} (hm : IntMat m) (i j : Nat) :
    ∃ k : ℤ, mEntry m i j = k := by
  unfold mEntry
  rcases getD_mem_or_eq m i [] with h | h
  · rcases getD_mem_or_eq (m.getD i []) j 0 with h2 | h2
    · exact hm _ h _ h2
    · exact ⟨0, by rw [h2]; exact Int.cast_zero.symm⟩
  · exact ⟨0, by rw [h, List.getD_nil]; exact Int.cast_zero.symm⟩

theorem mEntry_mapMat {β : Type} [LinearOrderedField β] (f : α → β) (hf0 : f 0 = 0)
    (m : List (List α)) (i j : Nat) :
    mEntry (mapMat f m) i j = f (mEntry m i j) := by
  unfold mEntry mapMat
  rw [show ([] : List β) = List.map f [] from rfl, List.getD_map,
    getD_map_zero f hf0]

theorem mapMat_length {β : Type} (f : α → β) (m : List (List α)) :
    (mapMat f m).length = m.length := List.length_map m _

theorem consecSum_nonneg {m : List (List α)} (hm : MatNonneg m) :
    ∀ p : List Nat, 0 ≤ consecSum m p := by
  intro p
  induction p with
  | nil => simp [consecSum]
  | cons a t ih =>
    cases t with
    | nil => simp [consecSum]
    | cons b rest =>
      show 0 ≤ mEntry m a b + consecSum m (b :: rest)
      exact add_nonneg (mEntry_nonneg hm a b) ih

theorem calculateTotalDistance_nonneg {m : List (List α)} (hm : MatNonneg m)
    (p : List Nat) : 0 ≤ calculateTotalDistance p m := by
  unfold calculateTotalDistance
  refine add_nonneg (consecSum_nonneg hm p) ?_
  split
  · exact mEntry_nonneg hm _ _
  · exact le_refl 0

theorem consecSum_int {m : List (List α)} (hm : IntMat m) :
    ∀ p : List Nat, ∃ k : ℤ, consecSum m p = k := by
  intro p
  induction p with
  | nil => exact ⟨0, by simp [consecSum]⟩
  | cons a t ih =>
    cases t with
    | nil => exact ⟨0, by simp [consecSum]⟩
    | cons b rest =>
      obtain ⟨k1, hk1⟩ := mEntry_int hm a b
      obtain ⟨k2, hk2⟩ := ih
      refine ⟨k1 + k2, ?_⟩
      show mEntry m a b + consecSum m (b :: rest) = _
      rw [hk1, hk2]
      push_cast
      ring

theorem calculateTotalDistance_int {m : List (List α)} (hm : IntMat m)
    (p : List Nat) : ∃ k : ℤ, calculateTotalDistance p m = k := by
  obtain ⟨k1, hk1⟩ := consecSum_int hm p
  unfold calculateTotalDistance
  split
  · obtain ⟨k2, hk2⟩ := mEntry_int hm (p.getLastD 0) (p.headD 0)
    exact ⟨k1 + k2, by rw [hk1, hk2]; push_cast; ring⟩
  · exact ⟨k1, by rw [hk1]; ring⟩

theorem consecSum_mapMat {β : Type} [LinearOrderedField β] (f : α → β)
    (hf0 : f 0 = 0) (hfadd : ∀ a b, f (a + b) = f a + f b) (m : List (List α)) :
    ∀ p : List Nat, consecSum (mapMat f m) p = f (consecSum m p) := by
  intro p
  induction p with
  | nil => simp [consecSum, hf0]
  | cons a t ih =>
    cases t with
    | nil => simp [consecSum, hf0]
    | cons b rest =>
      show mEntry (mapMat f m) a b + consecSum (mapMat f m) (b :: rest) = _
      rw [mEntry_mapMat f hf0, ih]
      show _ = f (mEntry m a b + consecSum m (b :: rest))
      rw [hfadd]

theorem calculateTotalDistance_mapMat {β : Type} [LinearOrderedField β]
    (f : α → β) (hf0 : f 0 = 0) (hfadd : ∀ a b, f (a + b) = f a + f b)
    (m : List (List α)) (p : List Nat) :
    calculateTotalDistance p (mapMat f m) = f (calculateTotalDistance p m) := by
  unfold calculateTotalDistance
  rw [consecSum_mapMat f hf0 hfadd, hfadd]
  split
  · rw [mEntry_mapMat f hf0]
  · rw [hf0]

/-! ### Rotation invariance of the cycle cost -/

theorem consecSum_append_single (m : List (List α)) :
    ∀ (xs : List Nat) (y : Nat), xs ≠ [] →
      consecSum m (xs ++ [y]) = consecSum m xs + mEntry m (xs.getLastD 0) y := by
  intro xs
  induction xs with
  | nil => intro y h; exact absurd rfl h
  | cons a t ih =>
    intro y _
    cases t with
    | nil =>
      show mEntry m a y + consecSum m [y] = consecSum m [a] + mEntry m a y
      simp [consecSum, add_comm]
    | cons b rest =>
      show mEntry m a b + consecSum m (b :: (rest ++ [y])) = _
      have := ih y (by simp)
      rw [show (b :: rest) ++ [y] = b :: (rest ++ [y]) from rfl] at this
      rw [this]
      show _ = mEntry m a b + consecSum m (b :: rest) +
        mEntry m ((a :: b :: rest).getLastD 0) y
      simp only [List.getLastD_cons]
      ring

theorem calcTotal_append_rotate (m : List (List α)) (a : Nat) (l : List Nat)
    (hl : l ≠ []) :
    calculateTotalDistance (l ++ [a]) m = calculateTotalDistance (a :: l) m := by
  obtain ⟨b, t, rfl⟩ := List.exists_cons_of_ne_nil hl
  unfold calculateTotalDistance
  rw [consecSum_append_single m _ a (by simp)]
  have hlen1 : 1 < ((b :: t) ++ [a]).length := by simp
  have hlen2 : 1 < (a :: b :: t).length := by simp
  rw [if_pos hlen1, if_pos hlen2]
  have hlast : ((b :: t) ++ [a]).getLastD 0 = a := List.getLastD_concat _ _ _
  have hhead : ((b :: t) ++ [a]).headD 0 = b := rfl
  rw [hlast, hhead]
  have h1 : (a :: b :: t).getLastD 0 = t.getLastD b := by
    rw [List.getLastD_cons, List.getLastD_cons]
  have h2 : (b :: t).getLastD 0 = t.getLastD b := List.getLastD_cons _ _ _
  have h3 : (a :: b :: t).headD 0 = a := rfl
  rw [h1, h2, h3]
  show consecSum m (b :: t) + mEntry m (t.getLastD b) a + mEntry m a b =
    mEntry m a b + consecSum m (b :: t) + mEntry m (t.getLastD b) a
  ring

theorem calcTotal_rotate (m : List (List α)) (q : List Nat) (k : Nat) :
    calculateTotalDistance (q.rotate k) m = calculateTotalDistance q m := by
  induction k generalizing q with
  | zero => rw [List.rotate_zero]
  | succ k ih =>
    cases q with
    | nil => rw [List.rotate_nil]
    | cons a t =>
      rw [List.rotate_cons_succ, ih]
      by_cases ht : t = []
      · subst ht; rfl
      · exact calcTotal_append_rotate m a t ht

/-! ### Permutation enumeration: soundness and completeness -/

theorem permsAux_sound : ∀ (fuel : Nat) (arr p : List Nat),
    p ∈ permsAux fuel arr → p ~ arr := by
  intro fuel
  induction fuel with
  | zero =>
    intro arr p hp
    rw [permsAux] at hp
    simp only [List.mem_singleton] at hp
    rw [hp]
  | succ fuel ih =>
    intro arr p hp
    rw [permsAux] at hp
    by_cases hlen : arr.length ≤ 1
    · rw [if_pos hlen] at hp
      simp only [List.mem_singleton] at hp
      rw [hp]
    · rw [if_neg hlen] at hp
      simp only [List.mem_flatMap, List.mem_map, List.mem_range] at hp
      obtain ⟨i, hi, q, hq, rfl⟩ := hp
      have hq' : q ~ arr.take i ++ arr.drop (i + 1) := by
        have := ih (arr.eraseIdx i) q hq
        rwa [List.eraseIdx_eq_take_drop_succ] at this
      have hdecomp : arr.take i ++ arr[i] :: arr.drop (i + 1) = arr := by
        conv_rhs => rw [← List.take_append_drop i arr]
        rw [List.drop_eq_getElem_cons hi]
      rw [List.getD_eq_getElem arr 0 hi]
      calc arr[i] :: q
          ~ arr[i] :: (arr.take i ++ arr.drop (i + 1)) := hq'.cons _
        _ ~ arr.take i ++ arr[i] :: arr.drop (i + 1) := List.perm_middle.symm
        _ = arr := hdecomp

theorem permsAux_complete : ∀ (fuel : Nat) (arr q : List Nat),
    q ~ arr → arr.length ≤ fuel → q ∈ permsAux fuel arr := by
  intro fuel
  induction fuel with
  | zero =>
    intro arr q hq hlen
    have harr : arr = [] := List.eq_nil_of_length_eq_zero (Nat.le_zero.mp hlen)
    subst harr
    rw [List.perm_nil] at hq
    subst hq
    rw [permsAux]
    exact List.mem_singleton.mpr rfl
  | succ fuel ih =>
    intro arr q hq hlen
    rw [permsAux]
    by_cases hl : arr.length ≤ 1
    · rw [if_pos hl]
      refine List.mem_singleton.mpr ?_
      cases arr with
      | nil => exact List.perm_nil.mp hq
      | cons a t =>
        have : t = [] := by
          have := List.length_cons a t ▸ hl
          exact List.eq_nil_of_length_eq_zero (by omega)
        subst this
        exact List.perm_singleton.mp hq
    · rw [if_neg hl]
      have hql : q.length = arr.length := hq.length_eq
      cases q with
      | nil =>
        exfalso
        rw [List.length_nil] at hql
        omega
      | cons c q' =>
        have hc : c ∈ arr := hq.subset (List.mem_cons_self c q')
        have hi : arr.indexOf c < arr.length := List.indexOf_lt_length.mpr hc
        have hgeti : arr[arr.indexOf c] = c := List.getElem_indexOf hi
        have hdecomp : arr.take (arr.indexOf c) ++ c :: arr.drop (arr.indexOf c + 1) = arr := by
          conv_rhs => rw [← List.take_append_drop (arr.indexOf c) arr]
          rw [List.drop_eq_getElem_cons hi, hgeti]
        have hq' : q' ~ arr.eraseIdx (arr.indexOf c) := by
          rw [List.eraseIdx_eq_take_drop_succ]
          have hcq : c :: q' ~ c :: (arr.take (arr.indexOf c) ++ arr.drop (arr.indexOf c + 1)) := by
            refine hq.trans ?_
            conv_lhs => rw [← hdecomp]
            exact List.perm_middle
          exact hcq.cons_inv
        simp only [List.mem_flatMap, List.mem_range, List.mem_map]
        refine ⟨arr.indexOf c, hi, q', ih _ _ hq' ?_, ?_⟩
        · rw [List.length_eraseIdx]
          simp only [hi, if_pos]
          omega
        · rw [List.getD_eq_getElem arr 0 hi, hgeti]

theorem getPermutations_sound {arr p : List Nat} (hp : p ∈ getPermutations arr) :
    p ~ arr :=
  permsAux_sound _ _ _ hp

theorem getPermutations_complete {arr q : List Nat} (hq : q ~ arr) :
    q ∈ getPermutations arr :=
  permsAux_complete _ _ _ hq (le_refl _)

/-! ### The select-minimum fold shared by bruteForceOptimize and the
multi-start nearest-neighbor selection -/

theorem foldl_min_spec {β : Type} (m : List (List α)) (g : β → List Nat) :
    ∀ (l : List β) (p0 : List Nat) (d0 : α), d0 = calculateTotalDistance p0 m →
      (l.foldl (fun s x =>
        let path := g x
        let distance := calculateTotalDistance path m
        if distance < s.2 then (path, distance) else s) (p0, d0)).2 =
        calculateTotalDistance
          (l.foldl (fun s x =>
            let path := g x
            let distance := calculateTotalDistance path m
            if distance < s.2 then (path, distance) else s) (p0, d0)).1 m ∧
      (l.foldl (fun s x =>
        let path := g x
        let distance := calculateTotalDistance path m
        if distance < s.2 then (path, distance) else s) (p0, d0)).2 ≤ d0 ∧
      (∀ x ∈ l, (l.foldl (fun s x =>
        let path := g x
        let distance := calculateTotalDistance path m
        if distance < s.2 then (path, distance) else s) (p0, d0)).2 ≤
          calculateTotalDistance (g x) m) ∧
      ((l.foldl (fun s x =>
        let path := g x
        let distance := calculateTotalDistance path m
        if distance < s.2 then (path, distance) else s) (p0, d0)).1 = p0 ∨
        ∃ x ∈ l, (l.foldl (fun s x =>
          let path := g x
          let distance := calculateTotalDistance path m
          if distance < s.2 then (path, distance) else s) (p0, d0)).1 = g x) := by
  intro l
  induction l with
  | nil =>
    intro p0 d0 h0
    refine ⟨h0, le_refl _, ?_, Or.inl rfl⟩
    intro x hx
    exact absurd hx (List.not_mem_nil x)
  | cons a t ih =>
    intro p0 d0 h0
    simp only [List.foldl_cons]
    by_cases hcmp : calculateTotalDistance (g a) m < d0
    · rw [if_pos hcmp]
      obtain ⟨r1, r2, r3, r4⟩ := ih (g a) (calculateTotalDistance (g a) m) rfl
      refine ⟨r1, le_trans r2 (le_of_lt hcmp), ?_, ?_⟩
      · intro x hx
        rcases List.mem_cons.mp hx with rfl | hx
        · exact r2
        · exact r3 x hx
      · rcases r4 with h | ⟨x, hx, h⟩
        · exact Or.inr ⟨a, List.mem_cons_self a t, h⟩
        · exact Or.inr ⟨x, List.mem_cons_of_mem a hx, h⟩
    · rw [if_neg hcmp]
      obtain ⟨r1, r2, r3, r4⟩ := ih p0 d0 h0
      refine ⟨r1, r2, ?_, ?_⟩
      · intro x hx
        rcases List.mem_cons.mp hx with rfl | hx
        · exact le_trans r2 (le_of_not_lt hcmp)
        · exact r3 x hx
      · rcases r4 with h | ⟨x, hx, h⟩
        · exact Or.inl h
        · exact Or.inr ⟨x, List.mem_cons_of_mem a hx, h⟩

/-- Helper decomposition of the range as a cons. -/
theorem range_eq_zero_cons {n : Nat} (hn : 1 ≤ n) :
    List.range n = 0 :: List.range' 1 (n - 1) := by
  rw [List.range_eq_range']
  cases n with
  | zero => omega
  | succ k => rw [List.range'_succ]; simp

/-! ### Exact-solver optimality -/

theorem exists_zero_rotation (m : List (List α)) {n : Nat} (hn : 1 ≤ n)
    (q : List Nat) (hq : q ~ List.range n) :
    ∃ t : List Nat, t ~ List.range' 1 (n - 1) ∧
      calculateTotalDistance q m = calculateTotalDistance (0 :: t) m := by
  have h0 : 0 ∈ q := hq.mem_iff.mpr (List.mem_range.mpr hn)
  have hi : q.indexOf 0 < q.length := List.indexOf_lt_length.mpr h0
  have hrot : q.rotate (q.indexOf 0) = q.drop (q.indexOf 0) ++ q.take (q.indexOf 0) :=
    List.rotate_eq_drop_append_take (le_of_lt hi)
  have hdrop : q.drop (q.indexOf 0) = 0 :: q.drop (q.indexOf 0 + 1) := by
    rw [List.drop_eq_getElem_cons hi, List.getElem_indexOf hi]
  refine ⟨q.drop (q.indexOf 0 + 1) ++ q.take (q.indexOf 0), ?_, ?_⟩
  · have hperm : (0 :: (q.drop (q.indexOf 0 + 1) ++ q.take (q.indexOf 0))) ~
        List.range n := by
      have h := (List.rotate_perm q (q.indexOf 0)).trans hq
      rwa [hrot, hdrop, List.cons_append] at h
    rw [range_eq_zero_cons hn] at hperm
    exact hperm.cons_inv
  · rw [← calcTotal_rotate m q (q.indexOf 0), hrot, hdrop, List.cons_append]

theorem bruteForce_eq_fold (m : List (List α)) (h1 : ¬ m.length ≤ 1)
    (h2 : ¬ m.length = 2) :
    bruteForceOptimize m = ((getPermutations (List.range' 1 (m.length - 1))).foldl
      (fun s x =>
        let path := (fun perm => 0 :: perm) x
        let distance := calculateTotalDistance path m
        if distance < s.2 then (path, distance) else s)
      (0 :: List.range' 1 (m.length - 1),
        calculateTotalDistance (0 :: List.range' 1 (m.length - 1)) m)).1 := by
  unfold bruteForceOptimize
  rw [if_neg h1, if_neg h2]

theorem bruteForceOptimize_optimal (m : List (List α)) (hn : 2 ≤ m.length) :
    ∀ q : List Nat, q ~ List.range m.length →
      calculateTotalDistance (bruteForceOptimize m) m ≤
        calculateTotalDistance q m := by
  intro q hq
  obtain ⟨t, ht, hcost⟩ := exists_zero_rotation m (by omega) q hq
  rw [hcost]
  by_cases h2 : m.length = 2
  · have hbf : bruteForceOptimize m = [0, 1] := by
      unfold bruteForceOptimize
      rw [if_neg (by omega), if_pos h2]
    have ht1 : t = [1] := by
      have : t ~ [1] := by
        have h11 : List.range' 1 (m.length - 1) = [1] := by
          rw [h2]
          rfl
        rwa [h11] at ht
      exact List.perm_singleton.mp this
    rw [hbf, ht1]
  · obtain ⟨r1, r2, r3, r4⟩ := foldl_min_spec m (fun perm => 0 :: perm)
      (getPermutations (List.range' 1 (m.length - 1)))
      (0 :: List.range' 1 (m.length - 1)) _ rfl
    have hmem : t ∈ getPermutations (List.range' 1 (m.length - 1)) :=
      getPermutations_complete ht
    rw [bruteForce_eq_fold m (by omega) h2, ← r1]
    exact r3 t hmem

theorem bruteForceOptimize_le_input (m : List (List α)) (hn : 2 ≤ m.length) :
    calculateTotalDistance (bruteForceOptimize m) m ≤
      calculateTotalDistance (List.range m.length) m :=
  bruteForceOptimize_optimal m hn (List.range m.length) (List.Perm.refl _)

theorem bruteForceOptimize_perm (m : List (List α)) (hn : 2 ≤ m.length) :
    bruteForceOptimize m ~ List.range m.length := by
  by_cases h2 : m.length = 2
  · have hbf : bruteForceOptimize m = [0, 1] := by
      unfold bruteForceOptimize
      rw [if_neg (by omega), if_pos h2]
    rw [hbf, h2]
    rfl
  · obtain ⟨r1, r2, r3, r4⟩ := foldl_min_spec m (fun perm => 0 :: perm)
      (getPermutations (List.range' 1 (m.length - 1)))
      (0 :: List.range' 1 (m.length - 1)) _ rfl
    rw [bruteForce_eq_fold m (by omega) h2]
    rcases r4 with h | ⟨x, hx, h⟩
    · rw [h, ← range_eq_zero_cons (by omega)]
    · rw [h]
      have hxp : x ~ List.range' 1 (m.length - 1) := getPermutations_sound hx
      calc (0 :: x : List Nat)
          ~ 0 :: List.range' 1 (m.length - 1) := hxp.cons _
        _ = List.range m.length := (range_eq_zero_cons (by omega)).symm

/-! ### Nearest-neighbor scan and loop invariants -/

theorem betterCity_not_mem {m : List (List α)} {current : Nat} {path : List Nat}
    {i : Nat} {o : Option α} (h : betterCity m current path i o = true) :
    i ∉ path := by
  cases o with
  | none => simpa [betterCity] using h
  | some d =>
    rw [betterCity, Bool.and_eq_true, decide_eq_true_eq] at h
    exact h.1

theorem scan_fold_shape (m : List (List α)) (current : Nat) (path : List Nat) :
    ∀ (l : List Nat) (s : Option α × Option Nat),
      l.foldl (fun s i =>
        if betterCity m current path i s.1 then (some (mEntry m current i), some i)
        else s) s = s ∨
      ∃ c ∈ l, (l.foldl (fun s i =>
        if betterCity m current path i s.1 then (some (mEntry m current i), some i)
        else s) s).2 = some c ∧ c ∉ path := by
  intro l
  induction l with
  | nil => intro s; exact Or.inl rfl
  | cons i t ih =>
    intro s
    rw [List.foldl_cons]
    by_cases hb : betterCity m current path i s.1 = true
    · rw [if_pos hb]
      rcases ih (some (mEntry m current i), some i) with h | ⟨c, hc, h⟩
      · right
        exact ⟨i, List.mem_cons_self i t, by rw [h], betterCity_not_mem hb⟩
      · right
        exact ⟨c, List.mem_cons_of_mem i hc, h⟩
    · rw [if_neg hb]
      rcases ih s with h | ⟨c, hc, h⟩
      · exact Or.inl h
      · exact Or.inr ⟨c, List.mem_cons_of_mem i hc, h⟩

theorem scan_fold_some (m : List (List α)) (current : Nat) (path : List Nat) :
    ∀ (l : List Nat) (s : Option α × Option Nat), s.2.isSome →
      (l.foldl (fun s i =>
        if betterCity m current path i s.1 then (some (mEntry m current i), some i)
        else s) s).2.isSome := by
  intro l
  induction l with
  | nil => intro s h; exact h
  | cons i t ih =>
    intro s h
    rw [List.foldl_cons]
    by_cases hb : betterCity m current path i s.1 = true
    · rw [if_pos hb]
      exact ih _ rfl
    · rw [if_neg hb]
      exact ih s h

theorem scan_fold_progress (m : List (List α)) (current : Nat) (path : List Nat) :
    ∀ (l : List Nat) (s : Option α × Option Nat), s.1 = none →
      (∃ i ∈ l, i ∉ path) →
      ((l.foldl (fun s i =>
        if betterCity m current path i s.1 then (some (mEntry m current i), some i)
        else s) s).2).isSome := by
  intro l
  induction l with
  | nil =>
    intro s hs ⟨i, hi, _⟩
    exact absurd hi (List.not_mem_nil i)
  | cons i t ih =>
    intro s hs ⟨j, hj, hjp⟩
    rw [List.foldl_cons]
    by_cases hb : betterCity m current path i s.1 = true
    · rw [if_pos hb]
      exact scan_fold_some m current path t _ rfl
    · rw [if_neg hb]
      refine ih s hs ⟨j, ?_, hjp⟩
      rcases List.mem_cons.mp hj with rfl | hjt
      · exfalso
        rw [hs] at hb
        exact hb (by simpa [betterCity] using hjp)
      · exact hjt

theorem nnLoop_spec (m : List (List α)) (n : Nat) :
    ∀ (fuel : Nat) (path : List Nat),
      path.Nodup → (∀ x ∈ path, x < n) → n ≤ fuel + path.length →
      (nnLoop m n fuel path).Nodup ∧ (∀ x ∈ nnLoop m n fuel path, x < n) ∧
        (nnLoop m n fuel path).length = n := by
  intro fuel
  induction fuel with
  | zero =>
    intro path hnd hlt hfuel
    have hsub : path ⊆ List.range n := fun x hx => List.mem_range.mpr (hlt x hx)
    have hle : path.length ≤ n := by
      have := (List.subperm_of_subset hnd hsub).length_le
      simpa using this
    rw [nnLoop]
    exact ⟨hnd, hlt, by omega⟩
  | succ fuel ih =>
    intro path hnd hlt hfuel
    have hsub : path ⊆ List.range n := fun x hx => List.mem_range.mpr (hlt x hx)
    have hle : path.length ≤ n := by
      have := (List.subperm_of_subset hnd hsub).length_le
      simpa using this
    rw [nnLoop]
    by_cases hlen : path.length < n
    · rw [if_pos hlen]
      have hex : ∃ i ∈ List.range n, i ∉ path := by
        by_contra hcon
        push_neg at hcon
        have hsub2 : List.range n ⊆ path := fun x hx => hcon x hx
        have := (List.subperm_of_subset (List.nodup_range n) hsub2).length_le
        rw [List.length_range] at this
        omega
      have hsome := scan_fold_progress m (path.getLastD 0) path (List.range n)
        (none, none) rfl hex
      obtain ⟨c, hc⟩ := Option.isSome_iff_exists.mp hsome
      rcases scan_fold_shape m (path.getLastD 0) path (List.range n)
        (none, none) with hsh | ⟨c2, hc2, hceq, hcnp⟩
      · exfalso
        have hnone : (scanNearest m (path.getLastD 0) path (List.range n)).2 = none := by
          unfold scanNearest
          rw [hsh]
        rw [hsh] at hc
        exact Option.noConfusion hc
      · have hceq' : (scanNearest m (path.getLastD 0) path (List.range n)).2 =
            some c2 := by
          unfold scanNearest
          exact hceq
        rw [hceq']
        have hcn : c2 < n := List.mem_range.mp hc2
        refine ih (path ++ [c2]) ?_ ?_ ?_
        · rw [List.nodup_append]
          exact ⟨hnd, List.nodup_singleton c2, by simpa using hcnp⟩
        · intro x hx
          rcases List.mem_append.mp hx with hx | hx
          · exact hlt x hx
          · rw [List.mem_singleton.mp hx]
            exact hcn
        · rw [List.length_append, List.length_singleton]
          omega
    · rw [if_neg hlen]
      exact ⟨hnd, hlt, by omega⟩

theorem nearestNeighborTSP_perm (m : List (List α)) (start : Nat)
    (h2 : 2 ≤ m.length) (hs : start < m.length) :
    nearestNeighborTSP m start ~ List.range m.length := by
  unfold nearestNeighborTSP
  rw [if_neg (by omega), if_neg (by omega)]
  obtain ⟨hnd, hlt, hlen⟩ := nnLoop_spec m m.length m.length [start]
    (List.nodup_singleton start) (by simpa using hs) (by simp)
  have hsub : nnLoop m m.length m.length [start] ⊆ List.range m.length :=
    fun x hx => List.mem_range.mpr (hlt x hx)
  refine (List.subperm_of_subset hnd hsub).perm_of_length_le ?_
  rw [List.length_range, hlen]

/-! ### 2-opt inner loop lemmas -/

theorem twoOptInner_imp (m : List (List α)) (i : Nat) :
    ∀ (fuel j : Nat) (best : List Nat) (bd : α),
      (twoOptInner m i fuel j (best, bd, true)).2.2 = true := by
  intro fuel
  induction fuel with
  | zero => intro j best bd; rfl
  | succ fuel ih =>
    intro j best bd
    rw [twoOptInner]
    by_cases h1 : j < best.length
    · rw [if_pos h1]
      by_cases h2 : calculateTotalDistance (twoOptSwap best i j) m < bd - 1 / 10000
      · rw [if_pos h2]
        exact ih _ _ _
      · rw [if_neg h2]
        exact ih _ _ _
    · rw [if_neg h1]

theorem twoOptInner_of_imp_false (m : List (List α)) (i : Nat) :
    ∀ (fuel j : Nat) (best : List Nat) (bd : α) (imp : Bool),
      (twoOptInner m i fuel j (best, bd, imp)).2.2 = false →
      twoOptInner m i fuel j (best, bd, imp) = (best, bd, imp) := by
  intro fuel
  induction fuel with
  | zero => intro j best bd imp _; rfl
  | succ fuel ih =>
    intro j best bd imp hfalse
    rw [twoOptInner] at hfalse ⊢
    by_cases h1 : j < best.length
    · rw [if_pos h1] at hfalse ⊢
      by_cases h2 : calculateTotalDistance (twoOptSwap best i j) m < bd - 1 / 10000
      · rw [if_pos h2] at hfalse
        rw [twoOptInner_imp] at hfalse
        exact absurd hfalse (by simp)
      · rw [if_neg h2] at hfalse ⊢
        exact ih _ _ _ _ hfalse
    · rw [if_neg h1]

theorem twoOptInner_le (m : List (List α)) (i : Nat) :
    ∀ (fuel j : Nat) (best : List Nat) (bd : α) (imp : Bool),
      (twoOptInner m i fuel j (best, bd, imp)).2.1 ≤ bd := by
  intro fuel
  induction fuel with
  | zero => intro j best bd imp; exact le_refl bd
  | succ fuel ih =>
    intro j best bd imp
    rw [twoOptInner]
    by_cases h1 : j < best.length
    · rw [if_pos h1]
      by_cases h2 : calculateTotalDistance (twoOptSwap best i j) m < bd - 1 / 10000
      · rw [if_pos h2]
        refine le_trans (ih _ _ _ _) ?_
        have heps : (0:α) < 1 / 10000 := by norm_num
        linarith
      · rw [if_neg h2]
        exact ih _ _ _ _
    · rw [if_neg h1]

theorem twoOptInner_inv (m : List (List α)) (i : Nat) :
    ∀ (fuel j : Nat) (best : List Nat) (bd : α) (imp : Bool), i ≤ j →
      bd = calculateTotalDistance best m →
      (twoOptInner m i fuel j (best, bd, imp)).2.1 =
          calculateTotalDistance (twoOptInner m i fuel j (best, bd, imp)).1 m ∧
        (twoOptInner m i fuel j (best, bd, imp)).1 ~ best ∧
        (twoOptInner m i fuel j (best, bd, imp)).1.head? = best.head? := by
  intro fuel
  induction fuel with
  | zero => intro j best bd imp _ hbd; exact ⟨hbd, List.Perm.refl _, rfl⟩
  | succ fuel ih =>
    intro j best bd imp hij hbd
    rw [twoOptInner]
    by_cases h1 : j < best.length
    · rw [if_pos h1]
      by_cases h2 : calculateTotalDistance (twoOptSwap best i j) m < bd - 1 / 10000
      · rw [if_pos h2]
        obtain ⟨r1, r2, r3⟩ := ih (j + 1) (twoOptSwap best i j)
          (calculateTotalDistance (twoOptSwap best i j) m) true
          (by omega) rfl
        refine ⟨r1, r2.trans (twoOptSwap_perm best i j hij), ?_⟩
        rw [r3, twoOptSwap_head]
      · rw [if_neg h2]
        exact ih (j + 1) best bd imp (by omega) hbd
    · rw [if_neg h1]
      exact ⟨hbd, List.Perm.refl _, rfl⟩

theorem twoOptInner_strict (m : List (List α)) (i : Nat) :
    ∀ (fuel j : Nat) (best : List Nat) (bd : α),
      (twoOptInner m i fuel j (best, bd, false)).2.2 = true →
      (twoOptInner m i fuel j (best, bd, false)).2.1 < bd - 1 / 10000 := by
  intro fuel
  induction fuel with
  | zero => intro j best bd h; exact Bool.noConfusion h
  | succ fuel ih =>
    intro j best bd h
    rw [twoOptInner] at h ⊢
    by_cases h1 : j < best.length
    · rw [if_pos h1] at h ⊢
      by_cases h2 : calculateTotalDistance (twoOptSwap best i j) m < bd - 1 / 10000
      · rw [if_pos h2]
        exact lt_of_le_of_lt (twoOptInner_le m i fuel (j + 1) _ _ _) h2
      · rw [if_neg h2] at h ⊢
        exact ih _ _ _ h
    · rw [if_neg h1] at h
      exact Bool.noConfusion h

theorem twoOptInner_ge_length (m : List (List α)) (i : Nat) :
    ∀ (fuel j : Nat) (best : List Nat) (bd : α) (imp : Bool), best.length ≤ j →
      twoOptInner m i fuel j (best, bd, imp) = (best, bd, imp) := by
  intro fuel
  cases fuel with
  | zero => intro j best bd imp _; rfl
  | succ fuel =>
    intro j best bd imp hj
    rw [twoOptInner, if_neg (by omega)]

theorem twoOptInner_complete (m : List (List α)) (i : Nat) :
    ∀ (fuel j : Nat) (best : List Nat) (bd : α) (imp : Bool),
      best.length ≤ j + fuel →
      (twoOptInner m i fuel j (best, bd, imp)).2.2 = false →
      ∀ j2, j ≤ j2 → j2 < best.length →
        ¬ (calculateTotalDistance (twoOptSwap best i j2) m < bd - 1 / 10000) := by
  intro fuel
  induction fuel with
  | zero =>
    intro j best bd imp hfuel _ j2 hj2 hj2len
    omega
  | succ fuel ih =>
    intro j best bd imp hfuel hfalse j2 hj2 hj2len
    rw [twoOptInner] at hfalse
    by_cases h1 : j < best.length
    · rw [if_pos h1] at hfalse
      by_cases h2 : calculateTotalDistance (twoOptSwap best i j) m < bd - 1 / 10000
      · rw [if_pos h2] at hfalse
        rw [twoOptInner_imp] at hfalse
        exact absurd hfalse (by simp)
      · rw [if_neg h2] at hfalse
        rcases Nat.eq_or_lt_of_le hj2 with rfl | hj2'
        · exact h2
        · exact ih (j + 1) best bd imp (by omega) hfalse j2 (by omega) hj2len
    · omega

/-! ### 2-opt outer loop lemmas -/

theorem twoOptOuter_imp (m : List (List α)) :
    ∀ (fuel i : Nat) (best : List Nat) (bd : α),
      (twoOptOuter m fuel i (best, bd, true)).2.2 = true := by
  intro fuel
  induction fuel with
  | zero => intro i best bd; rfl
  | succ fuel ih =>
    intro i best bd
    rw [twoOptOuter]
    by_cases h1 : i < best.length - 1
    · rw [if_pos h1]
      rcases hInner : twoOptInner m i best.length (i + 2) (best, bd, true) with
        ⟨b2, d2, imp2⟩
      have himp2 : imp2 = true := by
        have := twoOptInner_imp m i best.length (i + 2) best bd
        rw [hInner] at this
        exact this
      subst himp2
      exact ih _ _ _
    · rw [if_neg h1]

theorem twoOptOuter_of_imp_false (m : List (List α)) :
    ∀ (fuel i : Nat) (best : List Nat) (bd : α) (imp : Bool),
      (twoOptOuter m fuel i (best, bd, imp)).2.2 = false →
      twoOptOuter m fuel i (best, bd, imp) = (best, bd, imp) := by
  intro fuel
  induction fuel with
  | zero => intro i best bd imp _; rfl
  | succ fuel ih =>
    intro i best bd imp hfalse
    rw [twoOptOuter] at hfalse ⊢
    by_cases h1 : i < best.length - 1
    · rw [if_pos h1] at hfalse ⊢
      rcases hInner : twoOptInner m i best.length (i + 2) (best, bd, imp) with
        ⟨b2, d2, imp2⟩
      rw [hInner] at hfalse
      have hres := ih (i + 1) b2 d2 imp2 hfalse
      rw [hres]
      have himp2 : imp2 = false := by
        rw [hres] at hfalse
        exact hfalse
      subst himp2
      have h3 := twoOptInner_of_imp_false m i best.length (i + 2) best bd imp
        (by rw [hInner])
      rw [hInner] at h3
      exact h3
    · rw [if_neg h1]

theorem twoOptOuter_le (m : List (List α)) :
    ∀ (fuel i : Nat) (best : List Nat) (bd : α) (imp : Bool),
      (twoOptOuter m fuel i (best, bd, imp)).2.1 ≤ bd := by
  intro fuel
  induction fuel with
  | zero => intro i best bd imp; exact le_refl bd
  | succ fuel ih =>
    intro i best bd imp
    rw [twoOptOuter]
    by_cases h1 : i < best.length - 1
    · rw [if_pos h1]
      rcases hInner : twoOptInner m i best.length (i + 2) (best, bd, imp) with
        ⟨b2, d2, imp2⟩
      have hle : d2 ≤ bd := by
        have := twoOptInner_le m i best.length (i + 2) best bd imp
        rw [hInner] at this
        exact this
      exact le_trans (ih (i + 1) b2 d2 imp2) hle
    · rw [if_neg h1]

theorem twoOptOuter_inv (m : List (List α)) :
    ∀ (fuel i : Nat) (best : List Nat) (bd : α) (imp : Bool),
      bd = calculateTotalDistance best m →
      (twoOptOuter m fuel i (best, bd, imp)).2.1 =
          calculateTotalDistance (twoOptOuter m fuel i (best, bd, imp)).1 m ∧
        (twoOptOuter m fuel i (best, bd, imp)).1 ~ best ∧
        (twoOptOuter m fuel i (best, bd, imp)).1.head? = best.head? := by
  intro fuel
  induction fuel with
  | zero => intro i best bd imp hbd; exact ⟨hbd, List.Perm.refl _, rfl⟩
  | succ fuel ih =>
    intro i best bd imp hbd
    rw [twoOptOuter]
    by_cases h1 : i < best.length - 1
    · rw [if_pos h1]
      rcases hInner : twoOptInner m i best.length (i + 2) (best, bd, imp) with
        ⟨b2, d2, imp2⟩
      obtain ⟨q1, q2, q3⟩ := twoOptInner_inv m i best.length (i + 2) best bd imp
        (by omega) hbd
      rw [hInner] at q1 q2 q3
      obtain ⟨r1, r2, r3⟩ := ih (i + 1) b2 d2 imp2 q1
      exact ⟨r1, r2.trans q2, r3.trans q3⟩
    · rw [if_neg h1]
      exact ⟨hbd, List.Perm.refl _, rfl⟩

theorem twoOptOuter_strict (m : List (List α)) :
    ∀ (fuel i : Nat) (best : List Nat) (bd : α),
      (twoOptOuter m fuel i (best, bd, false)).2.2 = true →
      (twoOptOuter m fuel i (best, bd, false)).2.1 < bd - 1 / 10000 := by
  intro fuel
  induction fuel with
  | zero => intro i best bd h; exact Bool.noConfusion h
  | succ fuel ih =>
    intro i best bd h
    rw [twoOptOuter] at h ⊢
    by_cases h1 : i < best.length - 1
    · rw [if_pos h1] at h ⊢
      rcases hInner : twoOptInner m i best.length (i + 2) (best, bd, false) with
        ⟨b2, d2, imp2⟩
      rw [hInner] at h
      cases imp2 with
      | true =>
        have hd2 : d2 < bd - 1 / 10000 := by
          have hst := twoOptInner_strict m i best.length (i + 2) best bd
            (by rw [hInner])
          rw [hInner] at hst
          exact hst
        exact lt_of_le_of_lt (twoOptOuter_le m fuel (i + 1) b2 d2 true) hd2
      | false =>
        have heq := twoOptInner_of_imp_false m i best.length (i + 2) best bd false
          (by rw [hInner])
        rw [hInner] at heq
        have hb2 : b2 = best := congrArg (fun s => s.1) heq
        have hd2 : d2 = bd := congrArg (fun s => s.2.1) heq
        subst hb2
        subst hd2
        exact ih (i + 1) b2 d2 h
    · rw [if_neg h1] at h
      exact Bool.noConfusion h

theorem twoOptOuter_complete (m : List (List α)) :
    ∀ (fuel i : Nat) (best : List Nat) (bd : α) (imp : Bool),
      best.length ≤ i + 1 + fuel →
      (twoOptOuter m fuel i (best, bd, imp)).2.2 = false →
      ∀ i2 j2, i ≤ i2 → i2 + 1 < best.length → i2 + 2 ≤ j2 → j2 < best.length →
        ¬ (calculateTotalDistance (twoOptSwap best i2 j2) m < bd - 1 / 10000) := by
  intro fuel
  induction fuel with
  | zero =>
    intro i best bd imp hfuel _ i2 j2 hi2 hi2len _ _
    omega
  | succ fuel ih =>
    intro i best bd imp hfuel hfalse i2 j2 hi2 hi2len hj2 hj2len
    rw [twoOptOuter] at hfalse
    by_cases h1 : i < best.length - 1
    · rw [if_pos h1] at hfalse
      rcases hInner : twoOptInner m i best.length (i + 2) (best, bd, imp) with
        ⟨b2, d2, imp2⟩
      rw [hInner] at hfalse
      cases imp2 with
      | true =>
        have himp := twoOptOuter_imp m fuel (i + 1) b2 d2
        rw [himp] at hfalse
        exact Bool.noConfusion hfalse
      | false =>
        have heq := twoOptInner_of_imp_false m i best.length (i + 2) best bd imp
          (by rw [hInner])
        rw [hInner] at heq
        have hb2 : b2 = best := congrArg (fun s => s.1) heq
        have hd2 : d2 = bd := congrArg (fun s => s.2.1) heq
        subst hb2
        subst hd2
        rcases Nat.eq_or_lt_of_le hi2 with rfl | hi2'
        · exact twoOptInner_complete m i b2.length (i + 2) b2 d2 imp
            (by omega) (by rw [hInner]) j2 hj2 hj2len
        · exact ih (i + 1) b2 d2 false (by omega) hfalse i2 j2 (by omega)
            hi2len hj2 hj2len
    · omega

/-! ### 2-opt while loop: termination measure and fixpoint -/

theorem filter_length_mono {β : Type} (p q : β → Bool)
    (himp : ∀ x, p x = true → q x = true) :
    ∀ l : List β, (l.filter p).length ≤ (l.filter q).length := by
  intro l
  induction l with
  | nil => exact le_refl 0
  | cons x t ih =>
    by_cases hpx : p x = true
    · rw [List.filter_cons_of_pos hpx, List.filter_cons_of_pos (himp x hpx)]
      simpa using ih
    · rw [List.filter_cons_of_neg (by simpa using hpx)]
      by_cases hqx : q x = true
      · rw [List.filter_cons_of_pos hqx]
        exact le_trans ih (by simp)
      · rw [List.filter_cons_of_neg (by simpa using hqx)]
        exact ih

theorem filter_length_lt {β : Type} (p q : β → Bool)
    (himp : ∀ x, p x = true → q x = true) :
    ∀ (l : List β) (a : β), a ∈ l → q a = true → p a = false →
      (l.filter p).length < (l.filter q).length := by
  intro l
  induction l with
  | nil => intro a ha; exact absurd ha (List.not_mem_nil a)
  | cons x t ih =>
    intro a ha hqa hpa
    rcases List.mem_cons.mp ha with rfl | hat
    · rw [List.filter_cons_of_neg (by simp [hpa]), List.filter_cons_of_pos hqa]
      rw [List.length_cons]
      exact Nat.lt_succ_of_le (filter_length_mono p q himp t)
    · by_cases hpx : p x = true
      · rw [List.filter_cons_of_pos hpx, List.filter_cons_of_pos (himp x hpx)]
        rw [List.length_cons, List.length_cons]
        exact Nat.succ_lt_succ (ih a hat hqa hpa)
      · rw [List.filter_cons_of_neg (by simpa using hpx)]
        by_cases hqx : q x = true
        · rw [List.filter_cons_of_pos hqx, List.length_cons]
          exact Nat.lt_succ_of_lt (ih a hat hqa hpa)
        · rw [List.filter_cons_of_neg (by simpa using hqx)]
          exact ih a hat hqa hpa

theorem costMeasure_perm (m : List (List α)) {l1 l2 : List Nat} (h : l1 ~ l2)
    (bd : α) : costMeasure m l1 bd = costMeasure m l2 bd := by
  unfold costMeasure
  exact ((h.permutations).filter _).length_eq

theorem costMeasure_lt (m : List (List α)) {best b2 : List Nat} {bd d2 : α}
    (hperm : b2 ~ best) (hd : d2 = calculateTotalDistance b2 m) (hlt : d2 < bd) :
    costMeasure m b2 d2 < costMeasure m best bd := by
  rw [costMeasure_perm m hperm d2]
  unfold costMeasure
  refine filter_length_lt _ _ ?_ best.permutations b2
    (List.mem_permutations.mpr hperm) ?_ ?_
  · intro x hx
    rw [decide_eq_true_eq] at hx ⊢
    exact lt_trans hx hlt
  · rw [decide_eq_true_eq, ← hd]
    exact hlt
  · rw [decide_eq_false_iff_not, ← hd]
    exact lt_irrefl d2

theorem costMeasure_le_factorial (m : List (List α)) (path : List Nat) (bd : α) :
    costMeasure m path bd ≤ path.length.factorial := by
  unfold costMeasure
  have h1 := List.length_filter_le
    (fun p => decide (calculateTotalDistance p m < bd)) path.permutations
  rwa [List.length_permutations] at h1

theorem twoOptWhile_spec (m : List (List α)) :
    ∀ (fuel : Nat) (best : List Nat) (bd : α),
      bd = calculateTotalDistance best m →
      costMeasure m best bd < fuel →
      twoOptWhile m fuel best bd ~ best ∧
        (twoOptWhile m fuel best bd).head? = best.head? ∧
        calculateTotalDistance (twoOptWhile m fuel best bd) m ≤ bd ∧
        (twoOptOuter m (twoOptWhile m fuel best bd).length 0
          (twoOptWhile m fuel best bd,
            calculateTotalDistance (twoOptWhile m fuel best bd) m,
            false)).2.2 = false := by
  intro fuel
  induction fuel with
  | zero => intro best bd _ hmu; exact absurd hmu (Nat.not_lt_zero _)
  | succ fuel ih =>
    intro best bd hbd hmu
    rw [twoOptWhile]
    rcases hOut : twoOptOuter m best.length 0 (best, bd, false) with ⟨b2, d2, imp2⟩
    cases imp2 with
    | false =>
      have heq := twoOptOuter_of_imp_false m best.length 0 best bd false
        (by rw [hOut])
      rw [hOut] at heq
      have hb2 : b2 = best := congrArg (fun s => s.1) heq
      have hd2 : d2 = bd := congrArg (fun s => s.2.1) heq
      show b2 ~ best ∧ b2.head? = best.head? ∧
        calculateTotalDistance b2 m ≤ bd ∧
        (twoOptOuter m b2.length 0 (b2, calculateTotalDistance b2 m,
          false)).2.2 = false
      rw [hb2, ← hbd]
      exact ⟨List.Perm.refl _, rfl, le_refl _, by rw [hOut]⟩
    | true =>
      obtain ⟨q1, q2, q3⟩ := twoOptOuter_inv m best.length 0 best bd false hbd
      rw [hOut] at q1 q2 q3
      have hstrict := twoOptOuter_strict m best.length 0 best bd (by rw [hOut])
      rw [hOut] at hstrict
      have hdlt : d2 < bd := lt_trans hstrict (sub_lt_self bd (by norm_num))
      have hmu2 : costMeasure m b2 d2 < fuel := by
        have hlt : costMeasure m b2 d2 < costMeasure m best bd :=
          costMeasure_lt m q2 q1 hdlt
        omega
      obtain ⟨r1, r2, r3, r4⟩ := ih b2 d2 q1 hmu2
      show twoOptWhile m fuel b2 d2 ~ best ∧
        (twoOptWhile m fuel b2 d2).head? = best.head? ∧
        calculateTotalDistance (twoOptWhile m fuel b2 d2) m ≤ bd ∧
        (twoOptOuter m (twoOptWhile m fuel b2 d2).length 0
          (twoOptWhile m fuel b2 d2,
            calculateTotalDistance (twoOptWhile m fuel b2 d2) m,
            false)).2.2 = false
      exact ⟨r1.trans q2, r2.trans q3, le_trans r3 (le_of_lt hdlt), r4⟩

/-! ### Top-level 2-opt properties -/

theorem twoOptOuter_short (m : List (List α)) :
    ∀ (fuel i : Nat) (best : List Nat) (bd : α), best.length ≤ 2 →
      (twoOptOuter m fuel i (best, bd, false)).2.2 = false := by
  intro fuel
  induction fuel with
  | zero => intro i best bd _; rfl
  | succ fuel ih =>
    intro i best bd hlen
    rw [twoOptOuter]
    by_cases h1 : i < best.length - 1
    · rw [if_pos h1]
      rw [twoOptInner_ge_length m i best.length (i + 2) best bd false (by omega)]
      exact ih (i + 1) best bd hlen
    · rw [if_neg h1]

theorem twoOptOptimization_spec (path : List Nat) (m : List (List α)) :
    twoOptOptimization path m ~ path ∧
      (twoOptOptimization path m).head? = path.head? ∧
      calculateTotalDistance (twoOptOptimization path m) m ≤
        calculateTotalDistance path m := by
  unfold twoOptOptimization
  by_cases h3 : path.length < 3
  · rw [if_pos h3]
    exact ⟨List.Perm.refl _, rfl, le_refl _⟩
  · rw [if_neg h3]
    have hmu : costMeasure m path (calculateTotalDistance path m) <
        path.length.factorial + 1 :=
      Nat.lt_succ_of_le (costMeasure_le_factorial m path _)
    obtain ⟨r1, r2, r3, _⟩ := twoOptWhile_spec m (path.length.factorial + 1) path
      (calculateTotalDistance path m) rfl hmu
    exact ⟨r1, r2, r3⟩

theorem twoOptOptimization_stable (path : List Nat) (m : List (List α)) :
    (twoOptOuter m (twoOptOptimization path m).length 0
      (twoOptOptimization path m,
        calculateTotalDistance (twoOptOptimization path m) m,
        false)).2.2 = false := by
  by_cases h3 : path.length < 3
  · rw [twoOptOptimization, if_pos h3]
    exact twoOptOuter_short m path.length 0 path _ (by omega)
  · rw [twoOptOptimization, if_neg h3]
    have hmu : costMeasure m path (calculateTotalDistance path m) <
        path.length.factorial + 1 :=
      Nat.lt_succ_of_le (costMeasure_le_factorial m path _)
    exact (twoOptWhile_spec m (path.length.factorial + 1) path
      (calculateTotalDistance path m) rfl hmu).2.2.2

theorem twoOptOptimization_localopt (path : List Nat) (m : List (List α)) :
    ∀ i j, i + 1 < (twoOptOptimization path m).length → i + 2 ≤ j →
      j < (twoOptOptimization path m).length →
      ¬ (calculateTotalDistance (twoOptSwap (twoOptOptimization path m) i j) m <
        calculateTotalDistance (twoOptOptimization path m) m - 1 / 10000) := by
  intro i j hi hj hjlen
  exact twoOptOuter_complete m (twoOptOptimization path m).length 0
    (twoOptOptimization path m)
    (calculateTotalDistance (twoOptOptimization path m) m) false (by omega)
    (twoOptOptimization_stable path m) i j (Nat.zero_le i) hi hj hjlen

theorem twoOptOptimization_idem (path : List Nat) (m : List (List α)) :
    twoOptOptimization (twoOptOptimization path m) m =
      twoOptOptimization path m := by
  have hstable := twoOptOptimization_stable path m
  by_cases h3 : (twoOptOptimization path m).length < 3
  · rw [twoOptOptimization, if_pos h3]
  · rw [twoOptOptimization, if_neg h3]
    rw [twoOptWhile]
    rcases hOut : twoOptOuter m (twoOptOptimization path m).length 0
      (twoOptOptimization path m,
        calculateTotalDistance (twoOptOptimization path m) m, false) with
      ⟨b2, d2, imp2⟩
    have himp2 : imp2 = false := by
      rw [hOut] at hstable
      exact hstable
    subst himp2
    have heq := twoOptOuter_of_imp_false m (twoOptOptimization path m).length 0
      (twoOptOptimization path m)
      (calculateTotalDistance (twoOptOptimization path m) m) false
      (by rw [hOut])
    rw [hOut] at heq
    exact congrArg (fun s => s.1) heq

/-! ### Invariance of the algorithms under an order- and sum-preserving map
of the distance matrix (used to transfer runs between fields) -/

section MapInvariance

variable {β : Type} [LinearOrderedField β] (f : α → β) (m : List (List α))

theorem betterCity_map (hf0 : f 0 = 0) (hmono : ∀ a b : α, a < b ↔ f a < f b)
    (current : Nat) (path : List Nat) (i : Nat) :
    ∀ o : Option α,
      betterCity (mapMat f m) current path i (Option.map f o) =
        betterCity m current path i o := by
  intro o
  cases o with
  | none => rfl
  | some d =>
    show (decide (i ∉ path) && decide (mEntry (mapMat f m) current i < f d)) =
      (decide (i ∉ path) && decide (mEntry m current i < d))
    rw [mEntry_mapMat f hf0]
    congr 1
    exact decide_eq_decide.mpr (hmono _ _).symm

theorem scan_fold_map (hf0 : f 0 = 0) (hmono : ∀ a b : α, a < b ↔ f a < f b)
    (current : Nat) (path : List Nat) :
    ∀ (l : List Nat) (nd : Option α) (nc : Option Nat),
      l.foldl (fun s i =>
        if betterCity (mapMat f m) current path i s.1 then
          (some (mEntry (mapMat f m) current i), some i)
        else s) (Option.map f nd, nc) =
      (Option.map f (l.foldl (fun s i =>
        if betterCity m current path i s.1 then (some (mEntry m current i), some i)
        else s) (nd, nc)).1,
       (l.foldl (fun s i =>
        if betterCity m current path i s.1 then (some (mEntry m current i), some i)
        else s) (nd, nc)).2) := by
  intro l
  induction l with
  | nil => intro nd nc; rfl
  | cons i t ih =>
    intro nd nc
    rw [List.foldl_cons, List.foldl_cons]
    rw [betterCity_map f m hf0 hmono]
    by_cases hb : betterCity m current path i nd = true
    · rw [if_pos hb, if_pos hb]
      have : (some (mEntry (mapMat f m) current i), some i) =
          ((Option.map f (some (mEntry m current i)) : Option β), some i) := by
        rw [mEntry_mapMat f hf0]
        rfl
      rw [this]
      exact ih (some (mEntry m current i)) (some i)
    · rw [if_neg hb, if_neg hb]
      exact ih nd nc

theorem scanNearest_map (hf0 : f 0 = 0) (hmono : ∀ a b : α, a < b ↔ f a < f b)
    (current : Nat) (path : List Nat) (l : List Nat) :
    (scanNearest (mapMat f m) current path l).2 =
      (scanNearest m current path l).2 := by
  unfold scanNearest
  have h := scan_fold_map f m hf0 hmono current path l none none
  rw [show (Option.map f none : Option β) = none from rfl] at h
  rw [h]

theorem nnLoop_map (hf0 : f 0 = 0) (hmono : ∀ a b : α, a < b ↔ f a < f b)
    (n : Nat) : ∀ (fuel : Nat) (path : List Nat),
      nnLoop (mapMat f m) n fuel path = nnLoop m n fuel path := by
  intro fuel
  induction fuel with
  | zero => intro path; rfl
  | succ fuel ih =>
    intro path
    rw [nnLoop, nnLoop]
    by_cases h1 : path.length < n
    · rw [if_pos h1, if_pos h1]
      rw [scanNearest_map f m hf0 hmono]
      rcases (scanNearest m (path.getLastD 0) path (List.range n)).2 with _ | c
      · exact ih path
      · exact ih (path ++ [c])
    · rw [if_neg h1, if_neg h1]

theorem nearestNeighborTSP_map (hf0 : f 0 = 0)
    (hmono : ∀ a b : α, a < b ↔ f a < f b) (startCity : Nat) :
    nearestNeighborTSP (mapMat f m) startCity = nearestNeighborTSP m startCity := by
  unfold nearestNeighborTSP
  rw [mapMat_length]
  by_cases h0 : m.length = 0
  · rw [if_pos h0, if_pos h0]
  · rw [if_neg h0, if_neg h0]
    by_cases h1 : m.length = 1
    · rw [if_pos h1, if_pos h1]
    · rw [if_neg h1, if_neg h1]
      exact nnLoop_map f m hf0 hmono m.length m.length [startCity]

theorem bestNN_fold_map (hf0 : f 0 = 0) (hfadd : ∀ a b, f (a + b) = f a + f b)
    (hmono : ∀ a b : α, a < b ↔ f a < f b) :
    ∀ (l : List Nat) (p0 : List Nat) (d0 : α),
      l.foldl (fun s start =>
        let path := nearestNeighborTSP (mapMat f m) start
        let distance := calculateTotalDistance path (mapMat f m)
        if distance < s.2 then (path, distance) else s) (p0, f d0) =
      ((l.foldl (fun s start =>
        let path := nearestNeighborTSP m start
        let distance := calculateTotalDistance path m
        if distance < s.2 then (path, distance) else s) (p0, d0)).1,
       f (l.foldl (fun s start =>
        let path := nearestNeighborTSP m start
        let distance := calculateTotalDistance path m
        if distance < s.2 then (path, distance) else s) (p0, d0)).2) := by
  intro l
  induction l with
  | nil => intro p0 d0; rfl
  | cons a t ih =>
    intro p0 d0
    rw [List.foldl_cons, List.foldl_cons]
    show t.foldl _
      (if calculateTotalDistance (nearestNeighborTSP (mapMat f m) a) (mapMat f m) <
          f d0 then
        (nearestNeighborTSP (mapMat f m) a,
          calculateTotalDistance (nearestNeighborTSP (mapMat f m) a) (mapMat f m))
      else (p0, f d0)) = _
    rw [nearestNeighborTSP_map f m hf0 hmono,
      calculateTotalDistance_mapMat f hf0 hfadd]
    by_cases hc : calculateTotalDistance (nearestNeighborTSP m a) m < d0
    · rw [if_pos ((hmono _ _).mp hc), if_pos hc]
      exact ih _ _
    · rw [if_neg (fun hlt => hc ((hmono _ _).mpr hlt)), if_neg hc]
      exact ih p0 d0

theorem bestNearestNeighbor_map (hf0 : f 0 = 0)
    (hfadd : ∀ a b, f (a + b) = f a + f b)
    (hmono : ∀ a b : α, a < b ↔ f a < f b) (n : Nat) :
    bestNearestNeighbor (mapMat f m) n = bestNearestNeighbor m n := by
  unfold bestNearestNeighbor
  rw [nearestNeighborTSP_map f m hf0 hmono,
    calculateTotalDistance_mapMat f hf0 hfadd]
  rw [bestNN_fold_map f m hf0 hfadd hmono]

theorem twoOptInner_map (hf0 : f 0 = 0) (hfadd : ∀ a b, f (a + b) = f a + f b)
    (heps : ∀ p q : List Nat,
      calculateTotalDistance p (mapMat f m) <
          calculateTotalDistance q (mapMat f m) - 1 / 10000 ↔
        calculateTotalDistance p m < calculateTotalDistance q m - 1 / 10000)
    (i : Nat) :
    ∀ (fuel j : Nat) (best : List Nat) (bd : α) (imp : Bool),
      bd = calculateTotalDistance best m →
      twoOptInner (mapMat f m) i fuel j (best, f bd, imp) =
        ((twoOptInner m i fuel j (best, bd, imp)).1,
         f (twoOptInner m i fuel j (best, bd, imp)).2.1,
         (twoOptInner m i fuel j (best, bd, imp)).2.2) := by
  intro fuel
  induction fuel with
  | zero => intro j best bd imp _; rfl
  | succ fuel ih =>
    intro j best bd imp hbd
    rw [twoOptInner, twoOptInner]
    by_cases h1 : j < best.length
    · rw [if_pos h1, if_pos h1]
      have hcond : (calculateTotalDistance (twoOptSwap best i j) (mapMat f m) <
          f bd - 1 / 10000) ↔
          (calculateTotalDistance (twoOptSwap best i j) m < bd - 1 / 10000) := by
        rw [hbd, ← calculateTotalDistance_mapMat f hf0 hfadd]
        exact heps _ _
      by_cases h2 : calculateTotalDistance (twoOptSwap best i j) m < bd - 1 / 10000
      · rw [if_pos (hcond.mpr h2), if_pos h2]
        rw [show calculateTotalDistance (twoOptSwap best i j) (mapMat f m) =
          f (calculateTotalDistance (twoOptSwap best i j) m) from
          calculateTotalDistance_mapMat f hf0 hfadd m _]
        exact ih (j + 1) (twoOptSwap best i j) _ true rfl
      · rw [if_neg (fun hh => h2 (hcond.mp hh)), if_neg h2]
        exact ih (j + 1) best bd imp hbd
    · rw [if_neg h1, if_neg h1]

theorem twoOptOuter_map (hf0 : f 0 = 0) (hfadd : ∀ a b, f (a + b) = f a + f b)
    (heps : ∀ p q : List Nat,
      calculateTotalDistance p (mapMat f m) <
          calculateTotalDistance q (mapMat f m) - 1 / 10000 ↔
        calculateTotalDistance p m < calculateTotalDistance q m - 1 / 10000) :
    ∀ (fuel i : Nat) (best : List Nat) (bd : α) (imp : Bool),
      bd = calculateTotalDistance best m →
      twoOptOuter (mapMat f m) fuel i (best, f bd, imp) =
        ((twoOptOuter m fuel i (best, bd, imp)).1,
         f (twoOptOuter m fuel i (best, bd, imp)).2.1,
         (twoOptOuter m fuel i (best, bd, imp)).2.2) := by
  intro fuel
  induction fuel with
  | zero => intro i best bd imp _; rfl
  | succ fuel ih =>
    intro i best bd imp hbd
    rw [twoOptOuter, twoOptOuter]
    by_cases h1 : i < best.length - 1
    · rw [if_pos h1, if_pos h1]
      rcases hInner : twoOptInner m i best.length (i + 2) (best, bd, imp) with
        ⟨b2, d2, imp2⟩
      have hmapInner := twoOptInner_map f m hf0 hfadd heps i best.length (i + 2)
        best bd imp hbd
      rw [hInner] at hmapInner
      rw [hmapInner]
      obtain ⟨q1, _, _⟩ := twoOptInner_inv m i best.length (i + 2) best bd imp
        (by omega) hbd
      rw [hInner] at q1
      exact ih (i + 1) b2 d2 imp2 q1
    · rw [if_neg h1, if_neg h1]

theorem twoOptWhile_map (hf0 : f 0 = 0) (hfadd : ∀ a b, f (a + b) = f a + f b)
    (heps : ∀ p q : List Nat,
      calculateTotalDistance p (mapMat f m) <
          calculateTotalDistance q (mapMat f m) - 1 / 10000 ↔
        calculateTotalDistance p m < calculateTotalDistance q m - 1 / 10000) :
    ∀ (fuel : Nat) (best : List Nat) (bd : α),
      bd = calculateTotalDistance best m →
      twoOptWhile (mapMat f m) fuel best (f bd) = twoOptWhile m fuel best bd := by
  intro fuel
  induction fuel with
  | zero => intro best bd _; rfl
  | succ fuel ih =>
    intro best bd hbd
    rw [twoOptWhile, twoOptWhile]
    rcases hOut : twoOptOuter m best.length 0 (best, bd, false) with ⟨b2, d2, imp2⟩
    have hmapOut := twoOptOuter_map f m hf0 hfadd heps best.length 0 best bd
      false hbd
    rw [hOut] at hmapOut
    rw [hmapOut]
    obtain ⟨q1, _, _⟩ := twoOptOuter_inv m best.length 0 best bd false hbd
    rw [hOut] at q1
    cases imp2 with
    | false => rfl
    | true =>
      show twoOptWhile (mapMat f m) fuel b2 (f d2) = twoOptWhile m fuel b2 d2
      exact ih b2 d2 q1

theorem twoOptOptimization_map (hf0 : f 0 = 0)
    (hfadd : ∀ a b, f (a + b) = f a + f b)
    (heps : ∀ p q : List Nat,
      calculateTotalDistance p (mapMat f m) <
          calculateTotalDistance q (mapMat f m) - 1 / 10000 ↔
        calculateTotalDistance p m < calculateTotalDistance q m - 1 / 10000)
    (path : List Nat) :
    twoOptOptimization path (mapMat f m) = twoOptOptimization path m := by
  unfold twoOptOptimization
  by_cases h3 : path.length < 3
  · rw [if_pos h3, if_pos h3]
  · rw [if_neg h3, if_neg h3]
    rw [calculateTotalDistance_mapMat f hf0 hfadd]
    exact twoOptWhile_map f m hf0 hfadd heps (path.length.factorial + 1) path _ rfl

theorem chooseOptimizedPath_map (hf0 : f 0 = 0)
    (hfadd : ∀ a b, f (a + b) = f a + f b)
    (hmono : ∀ a b : α, a < b ↔ f a < f b)
    (heps : ∀ p q : List Nat,
      calculateTotalDistance p (mapMat f m) <
          calculateTotalDistance q (mapMat f m) - 1 / 10000 ↔
        calculateTotalDistance p m < calculateTotalDistance q m - 1 / 10000)
    (n : Nat) (hn : ¬ n ≤ 8) :
    chooseOptimizedPath (mapMat f m) n = chooseOptimizedPath m n := by
  unfold chooseOptimizedPath
  rw [if_neg hn, if_neg hn]
  rw [bestNearestNeighbor_map f m hf0 hfadd hmono]
  exact twoOptOptimization_map f m hf0 hfadd heps _

end MapInvariance

/-! ### Real analysis of the haversine distance -/

theorem calculateDistance_def (lat1 lon1 lat2 lon2 : ℝ) :
    calculateDistance lat1 lon1 lat2 lon2 =
      6371 * (2 * atan2
        (Real.sqrt (Real.sin (toRad (lat2 - lat1) / 2) *
            Real.sin (toRad (lat2 - lat1) / 2) +
          Real.cos (toRad lat1) * Real.cos (toRad lat2) *
            Real.sin (toRad (lon2 - lon1) / 2) *
            Real.sin (toRad (lon2 - lon1) / 2)))
        (Real.sqrt (1 - (Real.sin (toRad (lat2 - lat1) / 2) *
            Real.sin (toRad (lat2 - lat1) / 2) +
          Real.cos (toRad lat1) * Real.cos (toRad lat2) *
            Real.sin (toRad (lon2 - lon1) / 2) *
            Real.sin (toRad (lon2 - lon1) / 2))))) := rfl

theorem calculateDistance_symm (a b c d : ℝ) :
    calculateDistance a b c d = calculateDistance c d a b := by
  rw [calculateDistance_def, calculateDistance_def]
  have h1 : toRad (a - c) = -(toRad (c - a)) := by unfold toRad; ring
  have h2 : toRad (b - d) = -(toRad (d - b)) := by unfold toRad; ring
  have key : Real.sin (toRad (a - c) / 2) * Real.sin (toRad (a - c) / 2) +
      Real.cos (toRad c) * Real.cos (toRad a) *
        Real.sin (toRad (b - d) / 2) * Real.sin (toRad (b - d) / 2) =
      Real.sin (toRad (c - a) / 2) * Real.sin (toRad (c - a) / 2) +
      Real.cos (toRad a) * Real.cos (toRad c) *
        Real.sin (toRad (d - b) / 2) * Real.sin (toRad (d - b) / 2) := by
    rw [h1, h2, neg_div, neg_div, Real.sin_neg, Real.sin_neg]
    ring
  rw [key]

theorem calculateDistance_self (a b : ℝ) : calculateDistance a b a b = 0 := by
  rw [calculateDistance_def]
  have ht : toRad (a - a) = 0 := by unfold toRad; rw [sub_self]; ring
  have ht2 : toRad (b - b) = 0 := by unfold toRad; rw [sub_self]; ring
  rw [ht, ht2, zero_div, Real.sin_zero]
  rw [show (0:ℝ) * 0 + Real.cos (toRad a) * Real.cos (toRad a) * 0 * 0 = 0 by ring]
  rw [Real.sqrt_zero, sub_zero, Real.sqrt_one]
  have hat : atan2 0 1 = 0 := by
    unfold atan2
    rw [if_pos one_pos, zero_div, Real.arctan_zero]
  rw [hat]
  ring

theorem arctan_nonneg_of_nonneg {z : ℝ} (hz : 0 ≤ z) : 0 ≤ Real.arctan z := by
  have h := Real.arctan_strictMono.monotone hz
  rwa [Real.arctan_zero] at h

theorem atan2_nonneg (y x : ℝ) (hy : 0 ≤ y) : 0 ≤ atan2 y x := by
  unfold atan2
  by_cases h1 : 0 < x
  · rw [if_pos h1]
    exact arctan_nonneg_of_nonneg (div_nonneg hy (le_of_lt h1))
  · rw [if_neg h1]
    by_cases h2 : x < 0
    · rw [if_pos h2, if_pos hy]
      have harc := Real.neg_pi_div_two_lt_arctan (y / x)
      have hpi := Real.pi_pos
      linarith
    · rw [if_neg h2]
      by_cases h3 : 0 < y
      · rw [if_pos h3]
        have hpi := Real.pi_pos
        linarith
      · rw [if_neg h3, if_neg (by linarith : ¬ y < 0)]

theorem calculateDistance_nonneg (a b c d : ℝ) :
    0 ≤ calculateDistance a b c d := by
  rw [calculateDistance_def]
  have h := atan2_nonneg
    (Real.sqrt (Real.sin (toRad (c - a) / 2) * Real.sin (toRad (c - a) / 2) +
      Real.cos (toRad a) * Real.cos (toRad c) *
        Real.sin (toRad (d - b) / 2) * Real.sin (toRad (d - b) / 2)))
    (Real.sqrt (1 - (Real.sin (toRad (c - a) / 2) * Real.sin (toRad (c - a) / 2) +
      Real.cos (toRad a) * Real.cos (toRad c) *
        Real.sin (toRad (d - b) / 2) * Real.sin (toRad (d - b) / 2))))
    (Real.sqrt_nonneg _)
  linarith

theorem atan2_sin_abs_cos {θ : ℝ} (h0 : 0 ≤ θ) (hπ : θ ≤ Real.pi) :
    atan2 (Real.sin θ) (|Real.cos θ|) = min θ (Real.pi - θ) := by
  have hpi := Real.pi_pos
  rcases lt_trichotomy θ (Real.pi / 2) with hlt | heq | hgt
  · have hcos : 0 < Real.cos θ :=
      Real.cos_pos_of_mem_Ioo ⟨by linarith, hlt⟩
    rw [abs_of_pos hcos]
    unfold atan2
    rw [if_pos hcos, ← Real.tan_eq_sin_div_cos,
      Real.arctan_tan (by linarith) hlt]
    exact (min_eq_left (by linarith)).symm
  · subst heq
    rw [Real.cos_pi_div_two, Real.sin_pi_div_two, abs_zero]
    unfold atan2
    rw [if_neg (lt_irrefl 0), if_neg (lt_irrefl 0), if_pos one_pos]
    rw [show Real.pi - Real.pi / 2 = Real.pi / 2 by ring, min_self]
  · have hcos : Real.cos θ < 0 :=
      Real.cos_neg_of_pi_div_two_lt_of_lt hgt (by linarith)
    have habs : |Real.cos θ| = Real.cos (Real.pi - θ) := by
      rw [Real.cos_pi_sub, abs_of_neg hcos]
    have hsin : Real.sin θ = Real.sin (Real.pi - θ) := (Real.sin_pi_sub θ).symm
    rw [habs, hsin]
    have hcos2 : 0 < Real.cos (Real.pi - θ) :=
      Real.cos_pos_of_mem_Ioo ⟨by linarith, by linarith⟩
    unfold atan2
    rw [if_pos hcos2, ← Real.tan_eq_sin_div_cos,
      Real.arctan_tan (by linarith) (by linarith)]
    exact (min_eq_right (by linarith)).symm

theorem calculateDistance_equator (x y : ℝ) (h1 : 0 ≤ y - x) (h2 : y - x ≤ 360) :
    calculateDistance 0 x 0 y =
      6371 * (Real.pi / 180) * min (y - x) (360 - (y - x)) := by
  have hpi := Real.pi_pos
  rw [calculateDistance_def]
  have ht0 : toRad (0 - 0) = 0 := by unfold toRad; ring
  have ht1 : toRad 0 = 0 := by unfold toRad; ring
  rw [ht0, zero_div, Real.sin_zero, ht1, Real.cos_zero]
  set θ := toRad (y - x) / 2 with hθ
  have hθval : θ = (y - x) * (Real.pi / 360) := by
    rw [hθ]; unfold toRad; ring
  have hθ0 : 0 ≤ θ := by
    rw [hθval]
    have : (0:ℝ) ≤ Real.pi / 360 := by positivity
    exact mul_nonneg h1 this
  have hθπ : θ ≤ Real.pi := by
    rw [hθval]
    nlinarith
  have hsin : 0 ≤ Real.sin θ := Real.sin_nonneg_of_nonneg_of_le_pi hθ0 hθπ
  have hE : (0:ℝ) * 0 + 1 * 1 * Real.sin θ * Real.sin θ =
      Real.sin θ * Real.sin θ := by ring
  rw [hE, Real.sqrt_mul_self hsin]
  have hcossq : 1 - Real.sin θ * Real.sin θ = Real.cos θ * Real.cos θ := by
    have h := Real.sin_sq_add_cos_sq θ
    rw [pow_two, pow_two] at h
    linarith
  rw [hcossq, Real.sqrt_mul_self_eq_abs]
  rw [atan2_sin_abs_cos hθ0 hθπ]
  rcases le_total θ (Real.pi - θ) with hle | hle
  · rw [min_eq_left hle]
    have hyx : y - x ≤ 180 := by
      rw [hθval] at hle
      nlinarith
    rw [min_eq_left (by linarith)]
    rw [hθval]
    ring
  · rw [min_eq_right hle]
    have hyx : 180 ≤ y - x := by
      rw [hθval] at hle
      nlinarith
    rw [min_eq_right (by linarith)]
    rw [hθval]
    ring

/-! ### Structure of the distance matrix and the solver output -/

theorem createDistanceMatrix_length (locs : List Location) :
    (createDistanceMatrix locs).length = locs.length := by
  unfold createDistanceMatrix
  rw [List.length_map, List.length_range]

theorem createDistanceMatrix_row_length (locs : List Location) :
    ∀ row ∈ createDistanceMatrix locs, row.length = locs.length := by
  intro row hrow
  unfold createDistanceMatrix at hrow
  simp only [List.mem_map, List.mem_range] at hrow
  obtain ⟨i, _, rfl⟩ := hrow
  rw [List.length_map, List.length_range]

theorem mEntry_createDistanceMatrix (locs : List Location) (i j : Nat)
    (hi : i < locs.length) (hj : j < locs.length) :
    mEntry (createDistanceMatrix locs) i j =
      if i = j then 0
      else
        calculateDistance (locs.getD i default).lat (locs.getD i default).lng
          (locs.getD j default).lat (locs.getD j default).lng := by
  unfold mEntry createDistanceMatrix
  simp only [List.getD_eq_getElem?_getD, List.getElem?_map,
    List.getElem?_range hi, List.getElem?_range hj, Option.map_some',
    Option.getD_some]

theorem createDistanceMatrix_nonneg (locs : List Location) :
    MatNonneg (createDistanceMatrix locs) := by
  intro row hrow x hx
  unfold createDistanceMatrix at hrow
  simp only [List.mem_map, List.mem_range] at hrow
  obtain ⟨i, _, rfl⟩ := hrow
  simp only [List.mem_map, List.mem_range] at hx
  obtain ⟨j, _, rfl⟩ := hx
  by_cases h : i = j
  · rw [if_pos h]
  · rw [if_neg h]
    exact calculateDistance_nonneg _ _ _ _

theorem mapIdx_index (locs : List Location) :
    (locs.mapIdx fun idx _ => idx) = List.range locs.length := by
  rw [List.mapIdx_eq_enum_map, List.enum_eq_zip_range]
  rw [show (Function.uncurry fun (idx : Nat) (_ : Location) => idx) =
    Prod.fst from rfl]
  exact List.map_fst_zip _ _ (by rw [List.length_range])

theorem solveTSP_fields (locations : List Location) (v : VehicleType)
    (h : 2 ≤ locations.length) :
    ∃ r, solveTSP locations v = some r ∧
      r.originalRoute.path = List.range locations.length ∧
      r.originalRoute.totalDistance =
        calculateTotalDistance (List.range locations.length)
          (createDistanceMatrix locations) ∧
      r.optimizedRoute.path =
        chooseOptimizedPath (createDistanceMatrix locations) locations.length ∧
      r.optimizedRoute.totalDistance =
        calculateTotalDistance
          (chooseOptimizedPath (createDistanceMatrix locations) locations.length)
          (createDistanceMatrix locations) ∧
      r.originalRoute.estimatedTime =
        r.originalRoute.totalDistance / VEHICLE_SPEEDS ℝ v * 60 ∧
      r.optimizedRoute.estimatedTime =
        r.optimizedRoute.totalDistance / VEHICLE_SPEEDS ℝ v * 60 ∧
      r.savingsDistance =
        max 0 (r.originalRoute.totalDistance - r.optimizedRoute.totalDistance) ∧
      r.savingsTime =
        max 0 (r.originalRoute.estimatedTime - r.optimizedRoute.estimatedTime) ∧
      r.savingsPercentage =
        max 0 (if 0 < r.originalRoute.totalDistance then
          (r.originalRoute.totalDistance - r.optimizedRoute.totalDistance) /
            r.originalRoute.totalDistance * 100
        else 0) := by
  unfold solveTSP
  rw [if_neg (by omega)]
  refine ⟨_, rfl, ?_, ?_, rfl, rfl, rfl, rfl, rfl, rfl, rfl⟩
  · exact mapIdx_index locations
  · rw [mapIdx_index locations]

/-! ### The equator instance: exact values of the distance matrix -/

theorem scaleQ_zero : scaleQ 0 = 0 := by
  unfold scaleQ
  rw [Rat.cast_zero, mul_zero]

theorem scaleQ_add (a b : ℚ) : scaleQ (a + b) = scaleQ a + scaleQ b := by
  unfold scaleQ
  rw [Rat.cast_add]
  ring

theorem unitKm_gt_100 : (100:ℝ) < unitKm := by
  unfold unitKm
  have h := Real.pi_gt_three
  nlinarith

theorem scaleQ_mono (a b : ℚ) : a < b ↔ scaleQ a < scaleQ b := by
  unfold scaleQ
  have hu : (0:ℝ) < unitKm := lt_trans (by norm_num) unitKm_gt_100
  constructor
  · intro h
    exact mul_lt_mul_of_pos_left (by exact_mod_cast h) hu
  · intro h
    have hc : (a:ℝ) < (b:ℝ) := lt_of_mul_lt_mul_left h (le_of_lt hu)
    exact_mod_cast hc

theorem mC1_int : IntMat mC1 := by
  intro row hrow q hq
  unfold mC1 at hrow
  simp only [List.mem_map] at hrow
  obtain ⟨a, _, rfl⟩ := hrow
  simp only [List.mem_map] at hq
  obtain ⟨b, _, rfl⟩ := hq
  exact ⟨_, rfl⟩

theorem scaleQ_eps_int (k1 k2 : ℤ) :
    scaleQ k1 < scaleQ k2 - 1 / 10000 ↔ ((k1:ℚ) < (k2:ℚ) - 1 / 10000) := by
  unfold scaleQ
  have hu : (100:ℝ) < unitKm := unitKm_gt_100
  constructor
  · intro h
    have hk : k1 < k2 := by
      have hc : unitKm * ((k1:ℚ):ℝ) < unitKm * ((k2:ℚ):ℝ) := by nlinarith
      have hc2 : ((k1:ℚ):ℝ) < ((k2:ℚ):ℝ) :=
        lt_of_mul_lt_mul_left hc (by linarith)
      exact_mod_cast hc2
    have hk1 : (k1:ℚ) ≤ (k2:ℚ) - 1 := by
      have : k1 ≤ k2 - 1 := by omega
      push_cast
      exact_mod_cast this
    linarith
  · intro h
    have hk : k1 < k2 := by
      have : (k1:ℚ) < (k2:ℚ) := by linarith
      exact_mod_cast this
    have hk1 : ((k1:ℚ):ℝ) ≤ ((k2:ℚ):ℝ) - 1 := by
      have h2 : k1 ≤ k2 - 1 := by omega
      have h3 : ((k1:ℤ):ℝ) ≤ ((k2:ℤ):ℝ) - 1 := by
        push_cast
        exact_mod_cast h2
      push_cast at h3 ⊢
      exact h3
    nlinarith

theorem mC1_eps : ∀ p q : List Nat,
    calculateTotalDistance p (mapMat scaleQ mC1) <
        calculateTotalDistance q (mapMat scaleQ mC1) - 1 / 10000 ↔
      calculateTotalDistance p mC1 < calculateTotalDistance q mC1 - 1 / 10000 := by
  intro p q
  obtain ⟨k1, hk1⟩ := calculateTotalDistance_int mC1_int p
  obtain ⟨k2, hk2⟩ := calculateTotalDistance_int mC1_int q
  rw [calculateTotalDistance_mapMat scaleQ scaleQ_zero scaleQ_add,
    calculateTotalDistance_mapMat scaleQ scaleQ_zero scaleQ_add, hk1, hk2]
  exact scaleQ_eps_int k1 k2

theorem calculateDistance_int_points (a b : ℤ) (hab : |a - b| ≤ 360) :
    calculateDistance 0 (a:ℝ) 0 (b:ℝ) =
      scaleQ ((min (|a - b|) (360 - |a - b|) : ℤ) : ℚ) := by
  rcases le_total a b with hle | hle
  · have habs : |a - b| = b - a := by
      rw [abs_sub_comm]
      exact abs_of_nonneg (by omega)
    rw [habs] at hab ⊢
    have hc1 : (0:ℝ) ≤ (b:ℝ) - (a:ℝ) := by
      have : (a:ℝ) ≤ (b:ℝ) := by exact_mod_cast hle
      linarith
    have hc2 : (b:ℝ) - (a:ℝ) ≤ 360 := by
      have : ((b - a : ℤ) : ℝ) ≤ 360 := by exact_mod_cast hab
      push_cast at this
      linarith
    rw [calculateDistance_equator (a:ℝ) (b:ℝ) hc1 hc2]
    unfold scaleQ unitKm
    congr 1
    push_cast
    ring_nf
  · have habs : |a - b| = a - b := abs_of_nonneg (by omega)
    rw [habs] at hab ⊢
    rw [calculateDistance_symm]
    have hc1 : (0:ℝ) ≤ (a:ℝ) - (b:ℝ) := by
      have : (b:ℝ) ≤ (a:ℝ) := by exact_mod_cast hle
      linarith
    have hc2 : (a:ℝ) - (b:ℝ) ≤ 360 := by
      have : ((a - b : ℤ) : ℝ) ≤ 360 := by exact_mod_cast hab
      push_cast at this
      linarith
    rw [calculateDistance_equator (b:ℝ) (a:ℝ) hc1 hc2]
    unfold scaleQ unitKm
    congr 1
    push_cast
    ring_nf

theorem circlePos_bound : ∀ a ∈ circlePos, ∀ b ∈ circlePos, |a - b| ≤ 360 := by
  decide

theorem matrix_ext (m1 m2 : List (List α)) (hl : m1.length = m2.length)
    (hrl : ∀ i, (m1.getD i []).length = (m2.getD i []).length)
    (he : ∀ i j, mEntry m1 i j = mEntry m2 i j) : m1 = m2 := by
  apply List.ext_getElem hl
  intro i h1 h2
  apply List.ext_getElem
  · have h := hrl i
    rw [List.getD_eq_getElem m1 [] h1, List.getD_eq_getElem m2 [] h2] at h
    exact h
  · intro j hj1 hj2
    have h := he i j
    unfold mEntry at h
    rw [List.getD_eq_getElem m1 [] h1, List.getD_eq_getElem m2 [] h2] at h
    rw [List.getD_eq_getElem _ _ hj1, List.getD_eq_getElem _ _ hj2] at h
    exact h

theorem mEntry_map_map {γ : Type} (g : γ → γ → α) (l : List γ) (dflt : γ)
    (i j : Nat) (hi : i < l.length) (hj : j < l.length) :
    mEntry (l.map fun a => l.map fun b => g a b) i j =
      g (l.getD i dflt) (l.getD j dflt) := by
  unfold mEntry
  simp only [List.getD_eq_getElem?_getD, List.getElem?_map,
    List.getElem?_eq_getElem hi, List.getElem?_eq_getElem hj,
    Option.map_some', Option.getD_some]

theorem locs10_length : locs10.length = 10 := by
  unfold locs10
  rw [List.length_map]
  rfl

theorem mC1_length : mC1.length = 10 := by
  unfold mC1
  rw [List.length_map]
  rfl

theorem locs10_getD (i : Nat) :
    locs10.getD i default =
      { id := "", name := "", lat := 0,
        lng := ((circlePos.getD i 0 : ℤ) : ℝ), address := none } := by
  unfold locs10
  by_cases hi : i < circlePos.length
  · simp only [List.getD_eq_getElem?_getD, List.getElem?_map,
      List.getElem?_eq_getElem hi, Option.map_some', Option.getD_some]
  · rw [List.getD_eq_default _ _ (by
      rw [List.length_map]; exact Nat.le_of_not_lt hi),
      List.getD_eq_default circlePos 0 (Nat.le_of_not_lt hi)]
    rw [show (((0:ℤ)):ℝ) = 0 from Int.cast_zero]
    rfl

theorem mEntry_oob_row {m : List (List α)} {i j : Nat}
    (h : (m.getD i []).length ≤ j) : mEntry m i j = 0 :=
  List.getD_eq_default _ _ h

theorem mEntry_oob_col {m : List (List α)} {i : Nat} (h : m.length ≤ i)
    (j : Nat) : mEntry m i j = 0 := by
  unfold mEntry
  rw [List.getD_eq_default _ _ h]
  rfl

theorem mC1_rows : ∀ row ∈ mC1, row.length = 10 := by decide

theorem cdm10_rowlen {i : Nat} (hi : i < 10) :
    ((createDistanceMatrix locs10).getD i []).length = 10 := by
  have hmem : (createDistanceMatrix locs10).getD i [] ∈
      createDistanceMatrix locs10 := by
    rw [List.getD_eq_getElem _ []
      (by rw [createDistanceMatrix_length, locs10_length]; omega)]
    exact List.getElem_mem _
  rw [createDistanceMatrix_row_length locs10 _ hmem, locs10_length]

theorem mC1_rowlen {i : Nat} (hi : i < 10) : ((mC1).getD i []).length = 10 := by
  have hmem : mC1.getD i [] ∈ mC1 := by
    rw [List.getD_eq_getElem _ [] (by rw [mC1_length]; omega)]
    exact List.getElem_mem _
  exact mC1_rows _ hmem

theorem mapMat_getD {β : Type} [LinearOrderedField β] (f : α → β)
    (m : List (List α)) (i : Nat) :
    (mapMat f m).getD i [] = List.map f (m.getD i []) := by
  unfold mapMat
  rw [show ([] : List β) = List.map f [] from rfl, List.getD_map]

theorem matrix_locs10 : createDistanceMatrix locs10 = mapMat scaleQ mC1 := by
  apply matrix_ext
  · rw [createDistanceMatrix_length, locs10_length]
    unfold mapMat
    rw [List.length_map, mC1_length]
  · intro i
    by_cases hi : i < 10
    · rw [cdm10_rowlen hi, mapMat_getD, List.length_map, mC1_rowlen hi]
    · rw [List.getD_eq_default _ []
        (by rw [createDistanceMatrix_length, locs10_length]; omega)]
      rw [List.getD_eq_default _ []
        (by unfold mapMat; rw [List.length_map, mC1_length]; omega)]
  · intro i j
    rw [mEntry_mapMat scaleQ scaleQ_zero]
    by_cases hi : i < 10
    · by_cases hj : j < 10
      · rw [mEntry_createDistanceMatrix locs10 i j (by rw [locs10_length]; omega)
          (by rw [locs10_length]; omega)]
        have hmc : mEntry mC1 i j =
            ((min (|circlePos.getD i 0 - circlePos.getD j 0|)
              (360 - |circlePos.getD i 0 - circlePos.getD j 0|) : ℤ) : ℚ) := by
          unfold mC1
          exact mEntry_map_map _ circlePos 0 i j
            (by rw [show circlePos.length = 10 from rfl]; omega)
            (by rw [show circlePos.length = 10 from rfl]; omega)
        rw [hmc, locs10_getD, locs10_getD]
        have hmemi : circlePos.getD i 0 ∈ circlePos := by
          rw [List.getD_eq_getElem circlePos 0
            (by rw [show circlePos.length = 10 from rfl]; omega)]
          exact List.getElem_mem _
        have hmemj : circlePos.getD j 0 ∈ circlePos := by
          rw [List.getD_eq_getElem circlePos 0
            (by rw [show circlePos.length = 10 from rfl]; omega)]
          exact List.getElem_mem _
        have hbound := circlePos_bound _ hmemi _ hmemj
        by_cases hij : i = j
        · rw [if_pos hij, hij]
          rw [show circlePos.getD j 0 - circlePos.getD j 0 = 0 from by ring,
            abs_zero]
          rw [show min (0:ℤ) (360 - 0) = 0 from by decide]
          rw [show ((0:ℤ):ℚ) = 0 from Int.cast_zero, scaleQ_zero]
        · rw [if_neg hij]
          exact calculateDistance_int_points _ _ hbound
      · rw [mEntry_oob_row (by rw [cdm10_rowlen hi]; omega),
          mEntry_oob_row (by rw [mC1_rowlen hi]; omega), scaleQ_zero]
    · rw [mEntry_oob_col (by rw [createDistanceMatrix_length, locs10_length]; omega) j,
        mEntry_oob_col (by rw [mC1_length]; omega) j, scaleQ_zero]

theorem mC1_identity_cost : calculateTotalDistance (List.range 10) mC1 = 360 := by
  with_unfolding_all decide

theorem mC1_heuristic_cost :
    calculateTotalDistance (chooseOptimizedPath mC1 10) mC1 = 394 := by
  with_unfolding_all decide

theorem locs10_costs :
    ∃ r, solveTSP locs10 VehicleType.car = some r ∧
      r.originalRoute.totalDistance = scaleQ 360 ∧
      r.optimizedRoute.totalDistance = scaleQ 394 := by
  obtain ⟨r, hs, hp1, hd1, hp2, hd2, _, _, _, _, _⟩ :=
    solveTSP_fields locs10 VehicleType.car (by rw [locs10_length]; omega)
  refine ⟨r, hs, ?_, ?_⟩
  · rw [hd1, matrix_locs10, locs10_length,
      calculateTotalDistance_mapMat scaleQ scaleQ_zero scaleQ_add,
      mC1_identity_cost]
  · rw [hd2, matrix_locs10, locs10_length,
      chooseOptimizedPath_map scaleQ mC1 scaleQ_zero scaleQ_add scaleQ_mono
        mC1_eps 10 (by omega),
      calculateTotalDistance_mapMat scaleQ scaleQ_zero scaleQ_add,
      mC1_heuristic_cost]

theorem scaleQ_gap : scaleQ 360 + 1000 < scaleQ 394 := by
  unfold scaleQ
  have h := unitKm_gt_100
  rw [show ((360:ℚ):ℝ) = 360 by norm_num, show ((394:ℚ):ℝ) = 394 by norm_num]
  nlinarith

/-! ### Shape of the optimized path chosen by the solver -/

theorem bestNN_eq_fold (m : List (List α)) (n : Nat) :
    bestNearestNeighbor m n = ((List.range' 1 (min n 5 - 1)).foldl
      (fun s x =>
        let path := (fun start => nearestNeighborTSP m start) x
        let distance := calculateTotalDistance path m
        if distance < s.2 then (path, distance) else s)
      (nearestNeighborTSP m 0,
        calculateTotalDistance (nearestNeighborTSP m 0) m)).1 := rfl

theorem bestNearestNeighbor_perm (m : List (List α)) (hn : 2 ≤ m.length) :
    bestNearestNeighbor m m.length ~ List.range m.length := by
  obtain ⟨r1, r2, r3, r4⟩ := foldl_min_spec m
    (fun start => nearestNeighborTSP m start)
    (List.range' 1 (min m.length 5 - 1)) (nearestNeighborTSP m 0) _ rfl
  rw [bestNN_eq_fold]
  rcases r4 with h | ⟨x, hx, h⟩
  · rw [h]
    exact nearestNeighborTSP_perm m 0 hn (by omega)
  · rw [h]
    have hxlt : x < m.length := by
      have := List.mem_range'_1.mp hx
      omega
    exact nearestNeighborTSP_perm m x hn hxlt

theorem chooseOptimizedPath_perm (m : List (List α)) (hn : 2 ≤ m.length) :
    chooseOptimizedPath m m.length ~ List.range m.length := by
  unfold chooseOptimizedPath
  by_cases h8 : m.length ≤ 8
  · rw [if_pos h8]
    exact bruteForceOptimize_perm m hn
  · rw [if_neg h8]
    exact (twoOptOptimization_spec (bestNearestNeighbor m m.length) m).1.trans
      (bestNearestNeighbor_perm m hn)

theorem chooseOptimizedPath_le_exact (m : List (List α)) (hn2 : 2 ≤ m.length)
    (hn8 : m.length ≤ 8) :
    calculateTotalDistance (chooseOptimizedPath m m.length) m ≤
      calculateTotalDistance (List.range m.length) m := by
  unfold chooseOptimizedPath
  rw [if_pos hn8]
  exact bruteForceOptimize_le_input m hn2

/-! ### Claims -/

/-- C1 (amended): for every input of 2 to 8 waypoints (the exact branch) and
any vehicle class, the optimized route of `solveTSP` is never longer than the
input-order route, with no epsilon needed; the original claim also asserted
this for the heuristic branch (more than 8 waypoints), which the
counterexample refutes. -/
theorem claim_C1_exact_branch_never_worse (locations : List Location)
    (v : VehicleType) (h2 : 2 ≤ locations.length) (h8 : locations.length ≤ 8) :
    ∃ r, solveTSP locations v = some r ∧
      r.optimizedRoute.totalDistance ≤ r.originalRoute.totalDistance := by
  obtain ⟨r, hs, _, hd1, _, hd2, _⟩ := solveTSP_fields locations v h2
  refine ⟨r, hs, ?_⟩
  rw [hd1, hd2]
  have h := chooseOptimizedPath_le_exact (createDistanceMatrix locations)
    (by rw [createDistanceMatrix_length]; exact h2)
    (by rw [createDistanceMatrix_length]; exact h8)
  rw [createDistanceMatrix_length] at h
  exact h

/-- Witness for the amended C1 at a concrete two-waypoint instance. -/
theorem claim_C1_exact_branch_never_worse_witness :
    ∃ r, solveTSP locsPair VehicleType.car = some r ∧
      r.optimizedRoute.totalDistance ≤ r.originalRoute.totalDistance :=
  claim_C1_exact_branch_never_worse locsPair VehicleType.car (by decide)
    (by decide)

/-- C1 counterexample: on the ten equator waypoints `locs10` (heuristic
branch), `solveTSP` returns an optimized route more than 1000 km longer than
the input-order route, so no small epsilon can make the claimed inequality
hold on the heuristic branch. -/
theorem claim_C1_counterexample :
    ∃ r, solveTSP locs10 VehicleType.car = some r ∧
      r.originalRoute.totalDistance + 1000 < r.optimizedRoute.totalDistance := by
  obtain ⟨r, hs, h1, h2⟩ := locs10_costs
  refine ⟨r, hs, ?_⟩
  rw [h1, h2]
  exact scaleQ_gap

/-- C2: for 2 to 8 waypoints the exact branch returns a globally optimal
tour: the optimized distance is at most the cycle cost of every permutation
of the waypoint indices (rotation invariance of the closed-cycle cost makes
fixing index 0 lossless). -/
theorem claim_C2_exact_solver_optimal (locations : List Location)
    (v : VehicleType) (q : List Nat) (h2 : 2 ≤ locations.length)
    (h8 : locations.length ≤ 8) (hq : q ~ List.range locations.length) :
    ∃ r, solveTSP locations v = some r ∧
      r.optimizedRoute.totalDistance ≤
        calculateTotalDistance q (createDistanceMatrix locations) := by
  obtain ⟨r, hs, _, _, _, hd2, _⟩ := solveTSP_fields locations v h2
  refine ⟨r, hs, ?_⟩
  rw [hd2]
  unfold chooseOptimizedPath
  rw [if_pos h8]
  exact bruteForceOptimize_optimal (createDistanceMatrix locations)
    (by rw [createDistanceMatrix_length]; exact h2) q
    (by rw [createDistanceMatrix_length]; exact hq)

/-- Witness for C2 at a concrete two-waypoint instance and the reversed
permutation. -/
theorem claim_C2_exact_solver_optimal_witness :
    ∃ r, solveTSP locsPair VehicleType.car = some r ∧
      r.optimizedRoute.totalDistance ≤
        calculateTotalDistance [1, 0] (createDistanceMatrix locsPair) :=
  claim_C2_exact_solver_optimal locsPair VehicleType.car [1, 0] (by decide)
    (by decide) (List.Perm.swap 0 1 [])

/-- C3 (amended): the source's `twoOptOptimization` is a first-improvement
2-opt that, after adopting a move, continues the scan from the current pair
rather than restarting it, so its result can differ from the spec's
restart-scan reference algorithm; like the reference, its result costs no
more than the input tour, is a permutation of it, and admits no 2-opt move
improving by more than the tolerance. -/
theorem claim_C3_continue_scan_local_optimum (path : List Nat)
    (m : List (List α)) :
    calculateTotalDistance (twoOptOptimization path m) m ≤
        calculateTotalDistance path m ∧
      twoOptOptimization path m ~ path ∧
      ∀ i j, i + 1 < (twoOptOptimization path m).length → i + 2 ≤ j →
        j < (twoOptOptimization path m).length →
        ¬ (calculateTotalDistance (twoOptSwap (twoOptOptimization path m) i j) m <
          calculateTotalDistance (twoOptOptimization path m) m - 1 / 10000) :=
  ⟨(twoOptOptimization_spec path m).2.2, (twoOptOptimization_spec path m).1,
    twoOptOptimization_localopt path m⟩

/-- C3 counterexample: on the 6-city instance `mC3` the source's
continue-scan 2-opt and the spec's restart-scan reference 2-opt return
different tours, refuting the claimed equality on every input. -/
theorem claim_C3_counterexample :
    twoOptOptimization [0, 1, 2, 3, 4, 5] mC3 ≠
      twoOptReferenceRestart [0, 1, 2, 3, 4, 5] mC3 := by
  with_unfolding_all decide

/-- C4: the solver returns an absent result exactly when there are fewer
than 2 waypoints; it is a total function, so no input raises an exception. -/
theorem claim_C4_null_iff_too_few (locations : List Location)
    (v : VehicleType) :
    solveTSP locations v = none ↔ locations.length < 2 := by
  unfold solveTSP
  by_cases h : locations.length < 2
  · rw [if_pos h]
    simp [h]
  · rw [if_neg h]
    simp [h]

/-- C5: for at least 2 waypoints, both returned paths are permutations of
the index range: each has length n and contains every index below n exactly
once (independently of the coordinates, so also for coincident waypoints). -/
theorem claim_C5_paths_are_permutations (locations : List Location)
    (v : VehicleType) (h2 : 2 ≤ locations.length) :
    ∃ r, solveTSP locations v = some r ∧
      r.originalRoute.path.length = locations.length ∧
      (∀ k < locations.length, r.originalRoute.path.count k = 1) ∧
      r.optimizedRoute.path.length = locations.length ∧
      (∀ k < locations.length, r.optimizedRoute.path.count k = 1) := by
  obtain ⟨r, hs, hp1, _, hp2, _, _⟩ := solveTSP_fields locations v h2
  have hperm : r.optimizedRoute.path ~ List.range locations.length := by
    rw [hp2]
    have h := chooseOptimizedPath_perm (createDistanceMatrix locations)
      (by rw [createDistanceMatrix_length]; exact h2)
    rw [createDistanceMatrix_length] at h
    exact h
  refine ⟨r, hs, ?_, ?_, ?_, ?_⟩
  · rw [hp1, List.length_range]
  · intro k hk
    rw [hp1]
    exact List.count_eq_one_of_mem (List.nodup_range _) (List.mem_range.mpr hk)
  · rw [hperm.length_eq, List.length_range]
  · intro k hk
    rw [hperm.count_eq]
    exact List.count_eq_one_of_mem (List.nodup_range _) (List.mem_range.mpr hk)

/-- Witness for C5 at a concrete two-waypoint instance. -/
theorem claim_C5_paths_are_permutations_witness :
    ∃ r, solveTSP locsPair VehicleType.car = some r ∧
      r.originalRoute.path.length = locsPair.length ∧
      (∀ k < locsPair.length, r.originalRoute.path.count k = 1) ∧
      r.optimizedRoute.path.length = locsPair.length ∧
      (∀ k < locsPair.length, r.optimizedRoute.path.count k = 1) :=
  claim_C5_paths_are_permutations locsPair VehicleType.car (by decide)

/-- C6: the savings fields are floored at zero, the percentage satisfies the
spec's formula, lies in the interval from 0 to 100, and vanishes when the
original distance is zero or the optimizer found no improvement. -/
theorem claim_C6_savings_fields (locations : List Location) (v : VehicleType)
    (h2 : 2 ≤ locations.length) :
    ∃ r, solveTSP locations v = some r ∧
      0 ≤ r.savingsDistance ∧ 0 ≤ r.savingsTime ∧ 0 ≤ r.savingsPercentage ∧
      r.savingsPercentage ≤ 100 ∧
      (0 < r.originalRoute.totalDistance →
        r.savingsPercentage = max 0
          ((r.originalRoute.totalDistance - r.optimizedRoute.totalDistance) /
            r.originalRoute.totalDistance * 100)) ∧
      (r.originalRoute.totalDistance = 0 → r.savingsPercentage = 0) ∧
      (r.optimizedRoute.totalDistance = r.originalRoute.totalDistance →
        r.savingsPercentage = 0) := by
  obtain ⟨r, hs, hp1, hd1, hp2, hd2, ht1, ht2, hsd, hst, hsp⟩ :=
    solveTSP_fields locations v h2
  have hopt : 0 ≤ r.optimizedRoute.totalDistance := by
    rw [hd2]
    exact calculateTotalDistance_nonneg (createDistanceMatrix_nonneg locations) _
  refine ⟨r, hs, ?_, ?_, ?_, ?_, ?_, ?_, ?_⟩
  · rw [hsd]
    exact le_max_left 0 _
  · rw [hst]
    exact le_max_left 0 _
  · rw [hsp]
    exact le_max_left 0 _
  · rw [hsp]
    refine max_le (by norm_num) ?_
    by_cases hpos : 0 < r.originalRoute.totalDistance
    · rw [if_pos hpos]
      have h1 : (r.originalRoute.totalDistance - r.optimizedRoute.totalDistance) /
          r.originalRoute.totalDistance ≤ 1 :=
        (div_le_one hpos).mpr (by linarith)
      nlinarith
    · rw [if_neg hpos]
      norm_num
  · intro hpos
    rw [hsp, if_pos hpos]
  · intro hzero
    rw [hsp, hzero]
    norm_num
  · intro heq
    rw [hsp, heq]
    by_cases hpos : 0 < r.originalRoute.totalDistance
    · rw [if_pos hpos, sub_self, zero_div, zero_mul, max_self]
    · rw [if_neg hpos, max_self]

/-- Witness for C6 at a concrete two-waypoint instance. -/
theorem claim_C6_savings_fields_witness :
    ∃ r, solveTSP locsPair VehicleType.car = some r ∧
      0 ≤ r.savingsDistance ∧ 0 ≤ r.savingsTime ∧ 0 ≤ r.savingsPercentage ∧
      r.savingsPercentage ≤ 100 ∧
      (0 < r.originalRoute.totalDistance →
        r.savingsPercentage = max 0
          ((r.originalRoute.totalDistance - r.optimizedRoute.totalDistance) /
            r.originalRoute.totalDistance * 100)) ∧
      (r.originalRoute.totalDistance = 0 → r.savingsPercentage = 0) ∧
      (r.optimizedRoute.totalDistance = r.originalRoute.totalDistance →
        r.savingsPercentage = 0) :=
  claim_C6_savings_fields locsPair VehicleType.car (by decide)

/-- C7: the haversine distance is symmetric and zero on the diagonal, and
the distance matrix is square with zero diagonal, symmetric, and has
non-negative entries. -/
theorem claim_C7_distance_symmetric (lat1 lon1 lat2 lon2 : ℝ)
    (locs : List Location) (i j : Nat) (hi : i < locs.length)
    (hj : j < locs.length) :
    (calculateDistance lat1 lon1 lat2 lon2 =
        calculateDistance lat2 lon2 lat1 lon1 ∧
      calculateDistance lat1 lon1 lat1 lon1 = 0) ∧
    ((createDistanceMatrix locs).length = locs.length ∧
      (∀ row ∈ createDistanceMatrix locs, row.length = locs.length) ∧
      mEntry (createDistanceMatrix locs) i j =
        mEntry (createDistanceMatrix locs) j i ∧
      mEntry (createDistanceMatrix locs) i i = 0 ∧
      0 ≤ mEntry (createDistanceMatrix locs) i j) := by
  refine ⟨⟨calculateDistance_symm lat1 lon1 lat2 lon2,
    calculateDistance_self lat1 lon1⟩,
    createDistanceMatrix_length locs, createDistanceMatrix_row_length locs,
    ?_, ?_, mEntry_nonneg (createDistanceMatrix_nonneg locs) i j⟩
  · rw [mEntry_createDistanceMatrix locs i j hi hj,
      mEntry_createDistanceMatrix locs j i hj hi]
    by_cases hij : i = j
    · rw [if_pos hij, if_pos hij.symm]
    · rw [if_neg hij, if_neg (fun h => hij h.symm)]
      exact calculateDistance_symm _ _ _ _
  · rw [mEntry_createDistanceMatrix locs i i hi hi, if_pos rfl]

/-- Witness for C7 at concrete coordinates and matrix indices. -/
theorem claim_C7_distance_symmetric_witness :
    (calculateDistance 1 2 3 4 = calculateDistance 3 4 1 2 ∧
      calculateDistance 1 2 1 2 = 0) ∧
    ((createDistanceMatrix locsPair).length = locsPair.length ∧
      (∀ row ∈ createDistanceMatrix locsPair, row.length = locsPair.length) ∧
      mEntry (createDistanceMatrix locsPair) 0 1 =
        mEntry (createDistanceMatrix locsPair) 1 0 ∧
      mEntry (createDistanceMatrix locsPair) 0 0 = 0 ∧
      0 ≤ mEntry (createDistanceMatrix locsPair) 0 1) :=
  claim_C7_distance_symmetric 1 2 3 4 locsPair 0 1 (by decide) (by decide)

/-- C8: on a matrix with non-negative entries (as every distance matrix is)
the embedded 2-opt loop reaches, within its provably sufficient fuel, a
state from which no segment reversal improves the tour by more than the
tolerance: the source's while loop performs finitely many adoptions and
returns a 2-opt local optimum. -/
theorem claim_C8_terminates_local_optimum (path : List Nat)
    (m : List (List α)) (hm : MatNonneg m) :
    ∀ i j, i + 1 < (twoOptOptimization path m).length → i + 2 ≤ j →
      j < (twoOptOptimization path m).length →
      ¬ (calculateTotalDistance (twoOptSwap (twoOptOptimization path m) i j) m <
        calculateTotalDistance (twoOptOptimization path m) m - 1 / 10000) :=
  fun i j hi hj hjl => twoOptOptimization_localopt path m i j hi hj hjl

/-- Witness for C8 on a concrete non-negative matrix. -/
theorem claim_C8_terminates_local_optimum_witness :
    MatNonneg mC3 ∧
      ¬ (calculateTotalDistance
          (twoOptSwap (twoOptOptimization [0, 1, 2, 3, 4, 5] mC3) 0 2) mC3 <
        calculateTotalDistance (twoOptOptimization [0, 1, 2, 3, 4, 5] mC3) mC3 -
          1 / 10000) :=
  ⟨by unfold MatNonneg; with_unfolding_all decide,
    claim_C8_terminates_local_optimum [0, 1, 2, 3, 4, 5] mC3
      (by unfold MatNonneg; with_unfolding_all decide) 0 2
      (by with_unfolding_all decide) (by decide)
      (by with_unfolding_all decide)⟩

/-- C9: 2-opt is idempotent: re-running it on its own output returns the
same tour, because the output admits no move improving by more than the
tolerance. -/
theorem claim_C9_two_opt_idempotent (path : List Nat) (m : List (List α)) :
    twoOptOptimization (twoOptOptimization path m) m =
      twoOptOptimization path m :=
  twoOptOptimization_idem path m

/-- C10: 2-opt never moves the tour's first element: the head of the result
equals the head of the input (each swap reverses a segment starting at
position i + 1 at the earliest). -/
theorem claim_C10_first_element_fixed (path : List Nat) (m : List (List α)) :
    (twoOptOptimization path m).head? = path.head? :=
  (twoOptOptimization_spec path m).2.1

end TSP
